import Mathlib

/-!
Verification of the anime-episode-release-tracker core against its
natural-language specification.

The Lean definitions below are a shallow embedding of the repository's
JavaScript source:
  * `src/jobs/scheduler.js`   — the reminder dispatch engine (`runReminderScan`),
  * `src/db.js`               — table shapes and uniqueness constraints,
  * the AniList reconciliation service (`runAniListSync`, `runAniListSyncSafe`),
  * the Express routes for `/api/episodes/upcoming`, `POST /api/reminders`
    and `DELETE /api/reminders/:id`.

Timestamps are modelled as integer milliseconds since the epoch (the code
compares ISO-8601 strings produced by `Date.prototype.toISOString`, whose
lexicographic order coincides with chronological order).  JavaScript
falsiness of strings ("" and null are falsy) and of numbers (0 and NaN are
falsy) is modelled explicitly where the code relies on it.
-/

/-- JavaScript `a || b` for a nullable string `a`: `null` and `""` fall
through to `b` (used for `reminder.email || reminder.user_email` and the
AniList title chain). -/
def jsOrStr (a : Option String) (b : String) : String :=
  match a with
  | none => b
  | some s => if s = "" then b else s

/-- JavaScript truthiness of a nullable string: `null` and `""` are falsy. -/
def jsStrTruthy (a : Option String) : Bool :=
  match a with
  | none => false
  | some s => s ≠ ""

/-- JavaScript `Number(x) || d`: a missing or non-numeric value (modelled as
`none`) and the number `0` are falsy and fall through to the default `d`. -/
def jsNumOr (v : Option Int) (d : Int) : Int :=
  match v with
  | none => d
  | some n => if n = 0 then d else n

/-- Notification channels of the dispatch engine (`'email'` / `'discord'`
strings in `scheduler.js`). -/
inductive Channel where
  | email
  | discord
deriving DecidableEq, Repr

/-- One row of `notification_log` as far as its identity is concerned:
`db.js` declares `UNIQUE(reminder_id, episode_id, channel)`. -/
structure LogRow where
  reminderId : Nat
  episodeId : Nat
  channel : Channel
deriving DecidableEq, Repr

/-- A delivery attempt made by the dispatch engine: the call to
`sendEmailReminder` / `sendDiscordReminder` with its resolved target. -/
structure Attempt where
  reminderId : Nat
  episodeId : Nat
  channel : Channel
  target : String
deriving DecidableEq, Repr

/-- Mutable state the reminder scan touches: the `notification_log` table and
the trace of delivery attempts it has made. -/
structure ScanSt where
  log : List LogRow
  attempts : List Attempt
deriving DecidableEq, Repr

/-- A row of `selectReminders` in `scheduler.js`: `reminders` joined with
`users` (for `user_email`), restricted by the query to `is_active = 1`,
which the embedding keeps as an explicit flag plus a filter. -/
structure ReminderRow where
  id : Nat
  userId : Nat
  animeId : Option Nat
  email : Option String
  discordWebhookUrl : Option String
  minutesBefore : Int
  isActive : Bool
  userEmail : String
deriving DecidableEq, Repr

/-- A row of the `episodes` table (`db.js`), together with the fields the
sync engine maintains.  `releaseAt` is the release instant in ms. -/
structure EpisodeRow where
  id : Nat
  animeId : Nat
  episodeNumber : Int
  title : Option String
  releaseAt : Int
  source : String
  externalId : Option Int
  createdAt : Int
deriving DecidableEq, Repr

/-- The `wasSentStmt` query: is there a `notification_log` row for the
(reminder, episode, channel) triple? -/
def wasSent (log : List LogRow) (r e : Nat) (c : Channel) : Bool :=
  log.any (fun row => row.reminderId == r && row.episodeId == e && row.channel == c)

/-- Entity filter of the scan: `if (reminder.anime_id && reminder.anime_id
!== episode.anime_id) continue;` — a null filter matches every episode. -/
def animeFilterOk (r : ReminderRow) (e : EpisodeRow) : Bool :=
  match r.animeId with
  | none => true
  | some a => a == e.animeId

/-- `triggerAt = releaseAt − minutes_before · 60 · 1000` (scheduler.js). -/
def triggerAtOf (r : ReminderRow) (e : EpisodeRow) : Int :=
  e.releaseAt - r.minutesBefore * 60 * 1000

/-- The due test of `runReminderScan`:
`diffMs = now − triggerAt; if (diffMs < 0 || diffMs > 60 * 1000) continue;`
so the pair is processed iff `0 ≤ diffMs ≤ 60000`. -/
def dueThisTick (now : Int) (r : ReminderRow) (e : EpisodeRow) : Bool :=
  let diff := now - triggerAtOf r e
  !(decide (diff < 0) || decide (diff > 60 * 1000))

/-- One channel of the per-pair body of `runReminderScan`: if the target is
truthy and no ledger row exists, attempt delivery; insert the ledger row
only when delivery succeeded (`deliver` returns `true`), and swallow a
delivery failure. -/
def channelStep (deliver : Nat → Nat → Channel → Bool) (r e : Nat) (c : Channel)
    (target : String) (st : ScanSt) : ScanSt :=
  if target ≠ "" && !wasSent st.log r e c then
    let attempted : ScanSt := { st with attempts := st.attempts ++ [⟨r, e, c, target⟩] }
    if deliver r e c then
      { attempted with log := attempted.log ++ [⟨r, e, c⟩] }
    else
      attempted
  else
    st

/-- The body of the nested loops of `runReminderScan` for one
(reminder, episode) pair: entity filter, due-window test, then the email
channel (with account-email fallback) followed by the Discord channel. -/
def processPair (deliver : Nat → Nat → Channel → Bool) (now : Int)
    (r : ReminderRow) (e : EpisodeRow) (st : ScanSt) : ScanSt :=
  if animeFilterOk r e && dueThisTick now r e then
    let afterEmail := channelStep deliver r.id e.id Channel.email (jsOrStr r.email r.userEmail) st
    channelStep deliver r.id e.id Channel.discord (jsOrStr r.discordWebhookUrl "") afterEmail
  else
    st

/-- `runReminderScan` of `scheduler.js`: candidate episodes are those with
`release_at BETWEEN now AND now + 48h` (inclusive, `ORDER BY release_at`),
reminders are the active ones, and every (reminder, episode) pair is
processed in turn against the shared state. -/
def runReminderScan (deliver : Nat → Nat → Channel → Bool) (now : Int)
    (reminders : List ReminderRow) (episodes : List EpisodeRow) (st : ScanSt) : ScanSt :=
  let lookahead := now + 48 * 60 * 60 * 1000
  let candidates :=
    (episodes.filter (fun e => decide (now ≤ e.releaseAt) && decide (e.releaseAt ≤ lookahead))).mergeSort
      (fun a b => decide (a.releaseAt ≤ b.releaseAt))
  let active := reminders.filter (fun r => r.isActive)
  active.foldl
    (fun acc r => candidates.foldl (fun acc2 e => processPair deliver now r e acc2) acc)
    st

/-- The due window exactly as the specification words it: a half-open
window `0 ≤ now − triggerAt < tickInterval`.  Stated from the spec's words
for comparison with `dueThisTick`, which is read off the code. -/
def specDueHalfOpen (now triggerAt tickInterval : Int) : Prop :=
  0 ≤ now - triggerAt ∧ now - triggerAt < tickInterval

/-- A concrete reminder used in counterexamples: 60-minutes lead, email
channel, active, no entity filter. -/
def remEx : ReminderRow :=
  { id := 1, userId := 1, animeId := none, email := some "fan@example.com"
    discordWebhookUrl := none, minutesBefore := 60, isActive := true
    userEmail := "owner@example.com" }

/-- A concrete episode used in counterexamples: releases at t = 3 600 000 ms,
so `triggerAt = 0` for a 60-minute lead. -/
def epEx : EpisodeRow :=
  { id := 1, animeId := 1, episodeNumber := 1, title := some "Episode 1"
    releaseAt := 3600000, source := "local", externalId := none, createdAt := 0 }

/-- C1 counterexample: with `releaseTime = 3 600 000` and `leadMinutes = 60`
we have `triggerAt = 0`; a scan at `now = 60 000 = triggerAt + tickInterval`
is still treated as due by the code (`diffMs > 60000` is false at equality),
while the claim's half-open window `0 ≤ now − triggerAt < 60 000` excludes
it.  So the window in the code is closed, not half-open. -/
theorem dueWindow_closed_at_tick_counterexample :
    dueThisTick 60000 remEx epEx = true ∧
    ¬ specDueHalfOpen 60000 (triggerAtOf remEx epEx) 60000 := by
  constructor
  · decide
  · intro h
    have h2 := h.2
    simp [triggerAtOf, remEx, epEx] at h2

/-- C1 (amended): the pair is treated as due in a tick at time `now` iff
`0 ≤ now − triggerAt ≤ tickInterval` with `tickInterval = 60 000` ms — a
closed window: a scan at exactly `now = triggerAt` is due, a scan at
`now = triggerAt − tickInterval` is not due, and a scan at exactly
`now = triggerAt + tickInterval` is still due (the notification ledger, not
the window, prevents a duplicate send on that boundary tick). -/
theorem dueWindow_closed_characterization (now : Int) (r : ReminderRow) (e : EpisodeRow) :
    dueThisTick now r e = true ↔
      (0 ≤ now - triggerAtOf r e ∧ now - triggerAtOf r e ≤ 60000) := by
  unfold dueThisTick
  constructor
  · intro h
    simp only [Bool.not_eq_true', Bool.or_eq_false_iff, decide_eq_false_iff_not] at h
    omega
  · intro h
    simp only [Bool.not_eq_true', Bool.or_eq_false_iff, decide_eq_false_iff_not]
    omega

/-- Request body of `POST /api/reminders` after the route's JavaScript
coercions: `animeId` is `Number(req.body.animeId)` when the raw value is
truthy and null otherwise; the two channel targets are trimmed strings when
the raw values are truthy and null otherwise; `minutesBefore` is
`Number(req.body.minutesBefore)` with `none` standing for a missing or
non-numeric (NaN) value. -/
structure ReminderBody where
  animeId : Option Int
  email : Option String
  discordWebhookUrl : Option String
  minutesBefore : Option Int
deriving DecidableEq, Repr

/-- A stored `reminders` row as `POST /api/reminders` inserts it
(`is_active` defaults to 1 in `db.js`). -/
structure StoredReminder where
  id : Nat
  userId : Nat
  animeId : Option Int
  email : Option String
  discordWebhookUrl : Option String
  minutesBefore : Int
  isActive : Bool
deriving DecidableEq, Repr

/-- Lead-time computation of `POST /api/reminders`:
`Math.max(5, Math.min(1440, Number(req.body.minutesBefore) || 60))`. -/
def clampMinutesBefore (v : Option Int) : Int :=
  max 5 (min 1440 (jsNumOr v 60))

/-- The `POST /api/reminders` handler: reject with HTTP 400 only when both
channel targets are falsy, otherwise insert the row with the clamped lead
time and return it (HTTP 201). -/
def createReminder (userId nextId : Nat) (b : ReminderBody) (tbl : List StoredReminder) :
    Except String (List StoredReminder × StoredReminder) :=
  if !jsStrTruthy b.email && !jsStrTruthy b.discordWebhookUrl then
    .error "Provide at least one channel: email or Discord webhook URL."
  else
    let row : StoredReminder :=
      { id := nextId, userId := userId, animeId := b.animeId, email := b.email
        discordWebhookUrl := b.discordWebhookUrl
        minutesBefore := clampMinutesBefore b.minutesBefore, isActive := true }
    .ok (tbl ++ [row], row)

/-- C7 counterexample: a request with `minutesBefore = 2000` (outside the
permitted 5–1440 range) and an email target is accepted, not rejected: the
reminder is stored with the clamped lead time 1440.  The claim that such a
request is rejected with a configuration error is false on the code. -/
theorem outOfRangeLead_not_rejected_counterexample :
    (createReminder 1 1
        { animeId := none, email := some "fan@example.com"
          discordWebhookUrl := none, minutesBefore := some 2000 } []).toOption.map
        (fun p => p.2.minutesBefore) = some 1440 ∧
    ¬ ((2000 : Int) ≤ 1440) := by
  constructor
  · rfl
  · decide

/-- C7 (amended): a lead time outside 5–1440 minutes is not rejected;
`POST /api/reminders` clamps the requested value into the range (a missing,
non-numeric or zero value becomes 60), so an out-of-range lead time still
never reaches the dispatch engine; the request is rejected with an error —
and no reminder stored — exactly when neither an email nor a Discord
webhook target is supplied. -/
theorem createReminder_clamps_lead (userId nextId : Nat) (b : ReminderBody)
    (tbl : List StoredReminder) :
    (5 ≤ clampMinutesBefore b.minutesBefore ∧ clampMinutesBefore b.minutesBefore ≤ 1440) ∧
    ((∃ msg, createReminder userId nextId b tbl = .error msg) ↔
      (jsStrTruthy b.email = false ∧ jsStrTruthy b.discordWebhookUrl = false)) ∧
    (∀ tbl2 row, createReminder userId nextId b tbl = .ok (tbl2, row) →
      row.minutesBefore = clampMinutesBefore b.minutesBefore ∧ tbl2 = tbl ++ [row]) := by
  refine ⟨⟨?_, ?_⟩, ?_, ?_⟩
  · unfold clampMinutesBefore
    omega
  · unfold clampMinutesBefore
    omega
  · constructor
    · rintro ⟨msg, hmsg⟩
      unfold createReminder at hmsg
      by_cases h : (!jsStrTruthy b.email && !jsStrTruthy b.discordWebhookUrl) = true
      · simp only [Bool.and_eq_true, Bool.not_eq_true'] at h
        exact ⟨h.1, h.2⟩
      · rw [if_neg (by simpa using h)] at hmsg
        exact absurd hmsg (by simp)
    · intro h
      refine ⟨"Provide at least one channel: email or Discord webhook URL.", ?_⟩
      unfold createReminder
      rw [if_pos (by simp [h.1, h.2])]
  · intro tbl2 row h
    unfold createReminder at h
    by_cases hc : (!jsStrTruthy b.email && !jsStrTruthy b.discordWebhookUrl) = true
    · rw [if_pos hc] at h
      exact absurd h (by simp)
    · rw [if_neg (by simpa using hc)] at h
      simp only [Except.ok.injEq, Prod.mk.injEq] at h
      refine ⟨?_, ?_⟩
      · rw [← h.2]
      · rw [← h.1, ← h.2]

/-- Effective window length of `GET /api/episodes/upcoming`:
`Math.max(1, Math.min(60, Number(req.query.days) || 14))`. -/
def effectiveDays (q : Option Int) : Int :=
  max 1 (min 60 (jsNumOr q 14))

/-- Window length as the claim words it: clamp the parsed value into
`[1, 60]`, with 14 only for a missing or non-numeric parameter.  Stated from
the claim's words for comparison with `effectiveDays`. -/
def specDaysClamped (q : Option Int) : Int :=
  match q with
  | none => 14
  | some n => max 1 (min 60 n)

/-- The `GET /api/episodes/upcoming` handler: episodes with
`release_at BETWEEN now AND now + days·24h` (inclusive), ordered by
ascending release time. -/
def upcomingEpisodes (q : Option Int) (now : Int) (episodes : List EpisodeRow) :
    List EpisodeRow :=
  let endAt := now + effectiveDays q * 24 * 60 * 60 * 1000
  (episodes.filter (fun e => decide (now ≤ e.releaseAt) && decide (e.releaseAt ≤ endAt))).mergeSort
    (fun a b => decide (a.releaseAt ≤ b.releaseAt))

/-- C9 counterexample: for `days=0` — a numeric parameter — the code falls
back to 14 (`Number('0')` is falsy), while clamping 0 into `[1, 60]` as the
claim states would give 1. -/
theorem upcomingDays_zero_counterexample :
    effectiveDays (some 0) = 14 ∧ specDaysClamped (some 0) = 1 ∧ (14 : Int) ≠ 1 := by
  refine ⟨by decide, by decide, by decide⟩

/-- C9 (amended): the effective window length is clamped to `[1, 60]`, with
14 used when the `days` parameter is missing, non-numeric or parses to 0
(the JavaScript default catches every falsy parse); the response contains
exactly the episodes whose release time lies between `now` and
`now + days·24h` (both bounds inclusive), ordered by ascending release
time. -/
theorem upcomingEpisodes_window (q : Option Int) (now : Int) (episodes : List EpisodeRow) :
    (1 ≤ effectiveDays q ∧ effectiveDays q ≤ 60) ∧
    (q = none → effectiveDays q = 14) ∧
    (q = some 0 → effectiveDays q = 14) ∧
    (∀ e, e ∈ upcomingEpisodes q now episodes ↔
      (e ∈ episodes ∧ now ≤ e.releaseAt ∧
        e.releaseAt ≤ now + effectiveDays q * 24 * 60 * 60 * 1000)) ∧
    (upcomingEpisodes q now episodes).Pairwise (fun a b => a.releaseAt ≤ b.releaseAt) := by
  refine ⟨⟨?_, ?_⟩, ?_, ?_, ?_, ?_⟩
  · unfold effectiveDays
    omega
  · unfold effectiveDays
    unfold jsNumOr
    rcases q with _ | n
    · omega
    · by_cases h : n = 0
      · simp [h]
      · simp only [h, if_false]
        omega
  · intro h
    subst h
    rfl
  · intro h
    subst h
    rfl
  · intro e
    unfold upcomingEpisodes
    rw [List.mem_mergeSort, List.mem_filter]
    simp
  · unfold upcomingEpisodes
    have h := @List.sorted_mergeSort EpisodeRow
      (fun a b : EpisodeRow => decide (a.releaseAt ≤ b.releaseAt))
      (by
        intro a b c hab hbc
        simp only [decide_eq_true_eq] at hab hbc ⊢
        omega)
      (by
        intro a b
        simp only [Bool.or_eq_true, decide_eq_true_eq]
        omega)
      (episodes.filter (fun e => decide (now ≤ e.releaseAt) &&
        decide (e.releaseAt ≤ now + effectiveDays q * 24 * 60 * 60 * 1000)))
    exact h.imp (by simp)

/-- Result of the `DELETE /api/reminders/:id` handler: the table after the
statement ran and the HTTP status returned. -/
structure DeleteResult where
  table : List StoredReminder
  status : Nat
deriving DecidableEq, Repr

/-- The `DELETE /api/reminders/:id` handler: run
`DELETE FROM reminders WHERE id = ? AND user_id = ?` and answer 404 when the
statement reports zero changed rows, 204 otherwise.  `rid` is
`Number(req.params.id)` (an integer; a NaN id matches no row and is not
modelled further). -/
def deleteReminderRoute (rid : Int) (uid : Nat) (tbl : List StoredReminder) : DeleteResult :=
  let isMatch := fun r : StoredReminder => ((r.id : Int) == rid) && (r.userId == uid)
  let changes := tbl.countP isMatch
  { table := tbl.filter (fun r => !isMatch r)
    status := if changes == 0 then 404 else 204 }

/-- C10: `DELETE /api/reminders/:id` removes exactly the rows matching both
the given id and the authenticated user's id; it answers 404 precisely when
no row matches (nonexistent reminder or another user's reminder), and in
that case the table is left unchanged. -/
theorem deleteReminder_owner_scoped (rid : Int) (uid : Nat) (tbl : List StoredReminder) :
    ((deleteReminderRoute rid uid tbl).status = 404 ↔
      ∀ r ∈ tbl, ¬((r.id : Int) = rid ∧ r.userId = uid)) ∧
    ((deleteReminderRoute rid uid tbl).status = 404 →
      (deleteReminderRoute rid uid tbl).table = tbl) ∧
    (∀ r ∈ tbl, r ∈ (deleteReminderRoute rid uid tbl).table ↔
      ¬((r.id : Int) = rid ∧ r.userId = uid)) ∧
    (∀ r ∈ (deleteReminderRoute rid uid tbl).table, r ∈ tbl) := by
  unfold deleteReminderRoute
  simp only
  refine ⟨?_, ?_, ?_, ?_⟩
  · constructor
    · intro h r hr hmatch
      by_cases hz : tbl.countP
          (fun r : StoredReminder => ((r.id : Int) == rid) && (r.userId == uid)) = 0
      · rw [List.countP_eq_zero] at hz
        exact hz r hr (by simp [hmatch.1, hmatch.2])
      · simp [if_neg, hz] at h
    · intro h
      have hz : tbl.countP
          (fun r : StoredReminder => ((r.id : Int) == rid) && (r.userId == uid)) = 0 := by
        rw [List.countP_eq_zero]
        intro r hr hmatch
        simp only [Bool.and_eq_true, beq_iff_eq] at hmatch
        exact h r hr ⟨hmatch.1, hmatch.2⟩
      simp [hz]
  · intro h
    have hz : tbl.countP
        (fun r : StoredReminder => ((r.id : Int) == rid) && (r.userId == uid)) = 0 := by
      by_contra hz
      simp [if_neg, hz] at h
    rw [List.countP_eq_zero] at hz
    rw [List.filter_eq_self.2]
    intro r hr
    have h2 := hz r hr
    simp only [Bool.and_eq_true, beq_iff_eq, not_and] at h2
    simp only [Bool.not_eq_true', Bool.and_eq_false_iff, beq_eq_false_iff_ne, ne_eq]
    tauto
  · intro r hr
    rw [List.mem_filter]
    simp only [hr, true_and, Bool.not_eq_true', Bool.and_eq_false_iff, beq_eq_false_iff_ne, ne_eq]
    tauto
  · intro r hr
    exact (List.mem_filter.1 hr).1

/-- Membership reading of the `wasSentStmt` query: the ledger predicate holds
exactly when the triple's row is in the log. -/
theorem wasSent_iff_mem (log : List LogRow) (r e : Nat) (c : Channel) :
    wasSent log r e c = true ↔ (⟨r, e, c⟩ : LogRow) ∈ log := by
  unfold wasSent
  rw [List.any_eq_true]
  constructor
  · rintro ⟨row, hrow, hmatch⟩
    simp only [Bool.and_eq_true, beq_iff_eq] at hmatch
    obtain ⟨⟨h1, h2⟩, h3⟩ := hmatch
    cases row
    subst h1 h2 h3
    exact hrow
  · intro h
    exact ⟨⟨r, e, c⟩, h, by simp⟩

/-- Appending a row for a different triple does not change the ledger
predicate of a triple. -/
theorem wasSent_append_ne (log : List LogRow) (x : LogRow) (r e : Nat) (c : Channel)
    (hne : x ≠ ⟨r, e, c⟩) :
    wasSent (log ++ [x]) r e c = wasSent log r e c := by
  unfold wasSent
  rw [List.any_append]
  have hx : (x.reminderId == r && x.episodeId == e && x.channel == c) = false := by
    by_contra h
    simp only [Bool.not_eq_false, Bool.and_eq_true, beq_iff_eq] at h
    exact hne (by cases x; simp_all)
  simp [hx]

/-- Appending the triple's own row makes the ledger predicate true. -/
theorem wasSent_append_self (log : List LogRow) (r e : Nat) (c : Channel) :
    wasSent (log ++ [⟨r, e, c⟩]) r e c = true := by
  rw [wasSent_iff_mem]
  simp

/-- Exhaustive description of one channel step: either it leaves the state
alone, or the target was truthy and the triple unsent, in which case it
records the attempt and — exactly when delivery succeeded — the ledger
row. -/
theorem channelStep_cases (d : Nat → Nat → Channel → Bool) (r e : Nat) (c : Channel)
    (tar : String) (st : ScanSt) :
    channelStep d r e c tar st = st ∨
    (wasSent st.log r e c = false ∧ tar ≠ "" ∧
      ((channelStep d r e c tar st =
          { log := st.log ++ [⟨r, e, c⟩], attempts := st.attempts ++ [⟨r, e, c, tar⟩] } ∧
        d r e c = true) ∨
       (channelStep d r e c tar st = { st with attempts := st.attempts ++ [⟨r, e, c, tar⟩] } ∧
        d r e c = false))) := by
  by_cases hguard : (tar ≠ "" && !wasSent st.log r e c) = true
  · right
    have hg : tar ≠ "" ∧ wasSent st.log r e c = false := by
      simpa [Bool.and_eq_true, Bool.not_eq_true'] using hguard
    refine ⟨hg.2, hg.1, ?_⟩
    by_cases hdel : d r e c = true
    · left
      refine ⟨?_, hdel⟩
      unfold channelStep
      rw [if_pos hguard, if_pos hdel]
    · right
      refine ⟨?_, by simpa using hdel⟩
      unfold channelStep
      rw [if_pos hguard, if_neg hdel]
  · left
    unfold channelStep
    rw [if_neg hguard]

/-- A ledger row present before a channel step is present after it. -/
theorem channelStep_log_mono (d : Nat → Nat → Channel → Bool) (r e : Nat) (c : Channel)
    (tar : String) (st : ScanSt) (t : LogRow) (ht : t ∈ st.log) :
    t ∈ (channelStep d r e c tar st).log := by
  rcases channelStep_cases d r e c tar st with h | ⟨_, _, ⟨h, _⟩ | ⟨h, _⟩⟩ <;>
    rw [h] <;> simp [ht]

/-- A ledger row present before a pair's processing is present after it. -/
theorem processPair_log_mono (d : Nat → Nat → Channel → Bool) (now : Int)
    (r : ReminderRow) (e : EpisodeRow) (st : ScanSt) (t : LogRow) (ht : t ∈ st.log) :
    t ∈ (processPair d now r e st).log := by
  unfold processPair
  split
  · exact channelStep_log_mono _ _ _ _ _ _ _ (channelStep_log_mono _ _ _ _ _ _ _ ht)
  · exact ht

/-- The channel target the scan resolves for a reminder:
`reminder.email || reminder.user_email` for email, the webhook URL for
Discord. -/
def targetOf (r : ReminderRow) (c : Channel) : String :=
  match c with
  | Channel.email => jsOrStr r.email r.userEmail
  | Channel.discord => jsOrStr r.discordWebhookUrl ""

/-- A truthy target whose delivery succeeds leaves the triple's ledger row
present after its channel step. -/
theorem channelStep_establishes (d : Nat → Nat → Channel → Bool) (r e : Nat) (c : Channel)
    (tar : String) (st : ScanSt) (htar : tar ≠ "") (hdel : d r e c = true) :
    wasSent (channelStep d r e c tar st).log r e c = true := by
  by_cases hws : wasSent st.log r e c = true
  · rw [wasSent_iff_mem]
    exact channelStep_log_mono d r e c tar st _ ((wasSent_iff_mem _ _ _ _).1 hws)
  · have hws2 : wasSent st.log r e c = false := by simpa using hws
    have hguard : (tar ≠ "" && !wasSent st.log r e c) = true := by
      simp [htar, hws2]
    unfold channelStep
    rw [if_pos hguard, if_pos hdel]
    exact wasSent_append_self _ _ _ _

/-- After processing a pair that passes the entity filter and the due test,
any channel with a truthy target and a successful delivery has its ledger
row present. -/
theorem processPair_establishes (d : Nat → Nat → Channel → Bool) (now : Int)
    (r : ReminderRow) (e : EpisodeRow) (st : ScanSt) (c : Channel)
    (hfil : animeFilterOk r e = true) (hdue : dueThisTick now r e = true)
    (htar : targetOf r c ≠ "") (hdel : d r.id e.id c = true) :
    wasSent (processPair d now r e st).log r.id e.id c = true := by
  unfold processPair
  rw [if_pos (by simp [hfil, hdue])]
  cases c with
  | email =>
    rw [wasSent_iff_mem]
    refine channelStep_log_mono _ _ _ _ _ _ _ ?_
    rw [← wasSent_iff_mem]
    exact channelStep_establishes d r.id e.id Channel.email _ st (by simpa [targetOf] using htar) hdel
  | discord =>
    exact channelStep_establishes d r.id e.id Channel.discord _ _ (by simpa [targetOf] using htar) hdel

/-- Folding a step that preserves a property preserves it. -/
theorem foldl_preserve {α β : Type} (P : β → Prop) (f : β → α → β)
    (hstep : ∀ b a, P b → P (f b a)) :
    ∀ (l : List α) (b : β), P b → P (l.foldl f b) := by
  intro l
  induction l with
  | nil => intro b hb; exact hb
  | cons x xs ih => intro b hb; exact ih _ (hstep _ _ hb)

/-- A ledger row present before the scan is present after it. -/
theorem runReminderScan_log_mono (d : Nat → Nat → Channel → Bool) (now : Int)
    (reminders : List ReminderRow) (episodes : List EpisodeRow) (st : ScanSt)
    (t : LogRow) (ht : t ∈ st.log) :
    t ∈ (runReminderScan d now reminders episodes st).log := by
  unfold runReminderScan
  refine foldl_preserve (fun b : ScanSt => t ∈ b.log) _ ?_ _ _ ht
  intro b r hb
  exact foldl_preserve (fun b2 : ScanSt => t ∈ b2.log) _
    (fun b2 e hb2 => processPair_log_mono d now r e b2 t hb2) _ _ hb

/-- Number of delivery attempts recorded for one (reminder, episode,
channel) triple. -/
def attemptsFor (st : ScanSt) (t : LogRow) : Nat :=
  st.attempts.countP
    (fun a => a.reminderId == t.reminderId && a.episodeId == t.episodeId && a.channel == t.channel)

/-- Invariant carried through a scan, relative to the state `st0` the scan
started from: the ledger stays duplicate-free, rows only accumulate, and a
triple that already had its ledger row gets no further delivery attempt. -/
def ScanInv (st0 st : ScanSt) : Prop :=
  st.log.Nodup ∧ (∀ t ∈ st0.log, t ∈ st.log) ∧
    (∀ t ∈ st0.log, attemptsFor st t = attemptsFor st0 t)

/-- One channel step preserves the scan invariant: it only appends a ledger
row (and an attempt) for a triple whose row was absent at that moment. -/
theorem channelStep_inv (d : Nat → Nat → Channel → Bool) (r e : Nat) (c : Channel)
    (tar : String) (st0 st : ScanSt) (h : ScanInv st0 st) :
    ScanInv st0 (channelStep d r e c tar st) := by
  obtain ⟨hnodup, hsub, hatt⟩ := h
  rcases channelStep_cases d r e c tar st with heq | ⟨hws, htar, ⟨heq, hdel⟩ | ⟨heq, hdel⟩⟩
  · rw [heq]
    exact ⟨hnodup, hsub, hatt⟩
  all_goals {
    rw [heq]
    have hnotmem : (⟨r, e, c⟩ : LogRow) ∉ st.log := by
      rw [← wasSent_iff_mem]
      simp [hws]
    have hattFrozen : ∀ t ∈ st0.log,
        attemptsFor { st with attempts := st.attempts ++ [⟨r, e, c, tar⟩] } t = attemptsFor st0 t := by
      intro t ht0
      have htmem : t ∈ st.log := hsub t ht0
      have hne : t ≠ (⟨r, e, c⟩ : LogRow) := by
        intro hcontra
        exact hnotmem (hcontra ▸ htmem)
      have hmiss :
          ((⟨r, e, c, tar⟩ : Attempt).reminderId == t.reminderId &&
            (⟨r, e, c, tar⟩ : Attempt).episodeId == t.episodeId &&
            (⟨r, e, c, tar⟩ : Attempt).channel == t.channel) = false := by
        by_contra hx
        simp only [Bool.not_eq_false, Bool.and_eq_true, beq_iff_eq] at hx
        exact hne (by cases t; simp_all)
      rw [← hatt t ht0]
      unfold attemptsFor
      rw [List.countP_append]
      simp [hmiss]
    refine ⟨?_, ?_, ?_⟩
    · first
      | exact hnodup
      | { rw [List.nodup_append]
          exact ⟨hnodup, List.nodup_singleton _, by simpa [List.disjoint_singleton] using hnotmem⟩ }
    · intro t ht0
      have hmem := hsub t ht0
      simp only [List.mem_append]
      tauto
    · exact hattFrozen
  }

/-- Processing one pair preserves the scan invariant. -/
theorem processPair_inv (d : Nat → Nat → Channel → Bool) (now : Int)
    (r : ReminderRow) (e : EpisodeRow) (st0 st : ScanSt) (h : ScanInv st0 st) :
    ScanInv st0 (processPair d now r e st) := by
  unfold processPair
  split
  · exact channelStep_inv _ _ _ _ _ _ _ (channelStep_inv _ _ _ _ _ _ _ h)
  · exact h

/-- The whole scan preserves the scan invariant. -/
theorem runReminderScan_inv (d : Nat → Nat → Channel → Bool) (now : Int)
    (reminders : List ReminderRow) (episodes : List EpisodeRow) (st : ScanSt)
    (h : st.log.Nodup) :
    ScanInv st (runReminderScan d now reminders episodes st) := by
  unfold runReminderScan
  refine foldl_preserve (ScanInv st) _ ?_ _ _ ⟨h, fun t ht => ht, fun t ht => rfl⟩
  intro b r hb
  exact foldl_preserve (ScanInv st) _
    (fun b2 e hb2 => processPair_inv d now r e st b2 hb2) _ _ hb

/-- C2: at-most-once delivery.  If the `notification_log` respects its
uniqueness constraint before a scan, it still does after the scan; every
triple that already had its row keeps exactly one row (no additional
`notification_log` row is ever inserted for it); and no further delivery
attempt is made for such a triple — in particular a scan run any time after
a successful dispatch sends nothing for the same (reminder, episode,
channel) triple. -/
theorem ledger_at_most_once (d : Nat → Nat → Channel → Bool) (now : Int)
    (reminders : List ReminderRow) (episodes : List EpisodeRow) (st : ScanSt)
    (h : st.log.Nodup) :
    (runReminderScan d now reminders episodes st).log.Nodup ∧
    (∀ t ∈ st.log,
      (runReminderScan d now reminders episodes st).log.count t = 1 ∧ st.log.count t = 1) ∧
    (∀ t ∈ st.log,
      attemptsFor (runReminderScan d now reminders episodes st) t = attemptsFor st t) := by
  obtain ⟨hnodup, hsub, hatt⟩ := runReminderScan_inv d now reminders episodes st h
  refine ⟨hnodup, ?_, hatt⟩
  intro t ht
  exact ⟨List.count_eq_one_of_mem hnodup (hsub t ht), List.count_eq_one_of_mem h ht⟩

/-- Witness for C2 at a concrete state: one ledger row already present, a
scan over the matching reminder and episode at a due instant. -/
theorem ledger_at_most_once_witness :
    (runReminderScan (fun _ _ _ => true) 60000 [remEx] [epEx]
        ⟨[⟨1, 1, Channel.email⟩], []⟩).log.Nodup ∧
    (∀ t ∈ [(⟨1, 1, Channel.email⟩ : LogRow)],
      (runReminderScan (fun _ _ _ => true) 60000 [remEx] [epEx]
          ⟨[⟨1, 1, Channel.email⟩], []⟩).log.count t = 1 ∧
        [(⟨1, 1, Channel.email⟩ : LogRow)].count t = 1) ∧
    (∀ t ∈ [(⟨1, 1, Channel.email⟩ : LogRow)],
      attemptsFor (runReminderScan (fun _ _ _ => true) 60000 [remEx] [epEx]
          ⟨[⟨1, 1, Channel.email⟩], []⟩) t =
        attemptsFor ⟨[⟨1, 1, Channel.email⟩], []⟩ t) :=
  ledger_at_most_once (fun _ _ _ => true) 60000 [remEx] [epEx]
    ⟨[⟨1, 1, Channel.email⟩], []⟩ (by decide)

/-- If delivery for a triple fails, no step of the scan changes that
triple's ledger predicate. -/
theorem channelStep_wasSent_of_fail (d : Nat → Nat → Channel → Bool)
    (r2 e2 : Nat) (c2 : Channel) (tar : String) (b : ScanSt) (r e : Nat) (c : Channel)
    (hd : d r e c = false) :
    wasSent (channelStep d r2 e2 c2 tar b).log r e c = wasSent b.log r e c := by
  rcases channelStep_cases d r2 e2 c2 tar b with heq | ⟨_, _, ⟨heq, hdel⟩ | ⟨heq, _⟩⟩
  · rw [heq]
  · rw [heq]
    have hne : (⟨r2, e2, c2⟩ : LogRow) ≠ (⟨r, e, c⟩ : LogRow) := by
      intro hcontra
      rw [LogRow.mk.injEq] at hcontra
      obtain ⟨h1, h2, h3⟩ := hcontra
      subst h1 h2 h3
      rw [hdel] at hd
      exact Bool.true_eq_false.mp hd
    exact wasSent_append_ne b.log _ r e c hne
  · rw [heq]

/-- Processing any pair leaves a failed triple's ledger predicate alone. -/
theorem processPair_wasSent_of_fail (d : Nat → Nat → Channel → Bool) (now : Int)
    (r2 : ReminderRow) (e2 : EpisodeRow) (b : ScanSt) (r e : Nat) (c : Channel)
    (hd : d r e c = false) :
    wasSent (processPair d now r2 e2 b).log r e c = wasSent b.log r e c := by
  unfold processPair
  split
  · rw [channelStep_wasSent_of_fail d _ _ _ _ _ r e c hd,
      channelStep_wasSent_of_fail d _ _ _ _ _ r e c hd]
  · rfl

/-- The scan leaves a failed triple's ledger predicate alone. -/
theorem runReminderScan_wasSent_of_fail (d : Nat → Nat → Channel → Bool) (now : Int)
    (reminders : List ReminderRow) (episodes : List EpisodeRow) (st : ScanSt)
    (r e : Nat) (c : Channel) (hd : d r e c = false) :
    wasSent (runReminderScan d now reminders episodes st).log r e c =
      wasSent st.log r e c := by
  unfold runReminderScan
  refine foldl_preserve (fun b : ScanSt => wasSent b.log r e c = wasSent st.log r e c)
    _ ?_ _ _ rfl
  intro b r2 hb
  refine foldl_preserve (fun b2 : ScanSt => wasSent b2.log r e c = wasSent st.log r e c)
    _ ?_ _ _ hb
  intro b2 e2 hb2
  rw [processPair_wasSent_of_fail d now r2 e2 b2 r e c hd]
  exact hb2

/-- Folding the per-episode loop over a list containing the episode of a
deliverable pair leaves its ledger row present. -/
theorem innerFold_establishes (d : Nat → Nat → Channel → Bool) (now : Int)
    (r : ReminderRow) (e : EpisodeRow) (c : Channel)
    (hfil : animeFilterOk r e = true) (hdue : dueThisTick now r e = true)
    (htar : targetOf r c ≠ "") (hdel : d r.id e.id c = true) :
    ∀ (l : List EpisodeRow) (b : ScanSt), e ∈ l →
      wasSent (l.foldl (fun acc2 x => processPair d now r x acc2) b).log r.id e.id c = true := by
  intro l
  induction l with
  | nil => intro b hb; cases hb
  | cons x xs ih =>
    intro b hb
    rcases List.mem_cons.1 hb with hx | hxs
    · subst hx
      simp only [List.foldl_cons]
      refine foldl_preserve (fun b2 : ScanSt => wasSent b2.log r.id e.id c = true) _ ?_ _ _
        (processPair_establishes d now r e b c hfil hdue htar hdel)
      intro b2 e2 hb2
      rw [wasSent_iff_mem] at hb2 ⊢
      exact processPair_log_mono d now r e2 b2 _ hb2
    · simp only [List.foldl_cons]
      exact ih _ hxs

/-- Folding the per-reminder loop over a list containing the reminder of a
deliverable pair leaves its ledger row present. -/
theorem outerFold_establishes (d : Nat → Nat → Channel → Bool) (now : Int)
    (r : ReminderRow) (e : EpisodeRow) (c : Channel) (cands : List EpisodeRow)
    (hfil : animeFilterOk r e = true) (hdue : dueThisTick now r e = true)
    (htar : targetOf r c ≠ "") (hdel : d r.id e.id c = true) (hecand : e ∈ cands) :
    ∀ (lr : List ReminderRow) (b : ScanSt), r ∈ lr →
      wasSent ((lr.foldl
          (fun acc x => cands.foldl (fun acc2 y => processPair d now x y acc2) acc) b)).log
        r.id e.id c = true := by
  intro lr
  induction lr with
  | nil => intro b hb; cases hb
  | cons x xs ih =>
    intro b hb
    rcases List.mem_cons.1 hb with hx | hxs
    · subst hx
      simp only [List.foldl_cons]
      refine foldl_preserve (fun b2 : ScanSt => wasSent b2.log r.id e.id c = true) _ ?_ _ _
        (innerFold_establishes d now r e c hfil hdue htar hdel cands b hecand)
      intro b2 r2 hb2
      refine foldl_preserve (fun b3 : ScanSt => wasSent b3.log r.id e.id c = true) _ ?_ _ _ hb2
      intro b3 e2 hb3
      rw [wasSent_iff_mem] at hb3 ⊢
      exact processPair_log_mono d now r2 e2 b3 _ hb3
    · simp only [List.foldl_cons]
      exact ih _ hxs

/-- C5 progress lemma: a pair that passes the filter, is due, has a truthy
target on a channel, and whose delivery succeeds, has its ledger row present
after the scan — regardless of failures of any other delivery. -/
theorem runReminderScan_delivers (d : Nat → Nat → Channel → Bool) (now : Int)
    (reminders : List ReminderRow) (episodes : List EpisodeRow) (st : ScanSt)
    (r : ReminderRow) (e : EpisodeRow) (c : Channel)
    (hr : r ∈ reminders) (hact : r.isActive = true)
    (he : e ∈ episodes) (h1 : now ≤ e.releaseAt)
    (h2 : e.releaseAt ≤ now + 48 * 60 * 60 * 1000)
    (hfil : animeFilterOk r e = true) (hdue : dueThisTick now r e = true)
    (htar : targetOf r c ≠ "") (hdel : d r.id e.id c = true) :
    wasSent (runReminderScan d now reminders episodes st).log r.id e.id c = true := by
  unfold runReminderScan
  have hecand : e ∈
      (episodes.filter (fun x => decide (now ≤ x.releaseAt) &&
        decide (x.releaseAt ≤ now + 48 * 60 * 60 * 1000))).mergeSort
        (fun a b => decide (a.releaseAt ≤ b.releaseAt)) := by
    rw [List.mem_mergeSort, List.mem_filter]
    refine ⟨he, ?_⟩
    simp only [Bool.and_eq_true, decide_eq_true_eq]
    omega
  have hract : r ∈ reminders.filter (fun x => x.isActive) :=
    List.mem_filter.2 ⟨hr, hact⟩
  exact outerFold_establishes d now r e c _ hfil hdue htar hdel hecand _ st hract

/-- A reminder sharing the scan with `remEx`, used by witnesses: its email
delivery succeeds while `remEx`'s fails. -/
def remEx2 : ReminderRow :=
  { id := 2, userId := 2, animeId := none, email := some "other@example.com"
    discordWebhookUrl := none, minutesBefore := 60, isActive := true
    userEmail := "other-owner@example.com" }

/-- C5: a failed channel delivery attempt writes no `notification_log` row
for its (reminder, episode, channel) triple; the failure does not abort the
scan — any other deliverable pair in the same scan still gets dispatched and
logged; and the failed triple is attempted again with success by a later
tick while the pair is still inside the due window. -/
theorem deliveryFailure_isolated (d d2 : Nat → Nat → Channel → Bool) (now now2 : Int)
    (reminders : List ReminderRow) (episodes : List EpisodeRow) (st : ScanSt)
    (r r2 : ReminderRow) (e e2 : EpisodeRow) (c2 : Channel)
    (hfail : d r.id e.id Channel.email = false)
    (hr2 : r2 ∈ reminders) (hact2 : r2.isActive = true)
    (he2 : e2 ∈ episodes) (hw21 : now ≤ e2.releaseAt)
    (hw22 : e2.releaseAt ≤ now + 48 * 60 * 60 * 1000)
    (hfil2 : animeFilterOk r2 e2 = true) (hdue2 : dueThisTick now r2 e2 = true)
    (htar2 : targetOf r2 c2 ≠ "") (hdel2 : d r2.id e2.id c2 = true)
    (hr : r ∈ reminders) (hact : r.isActive = true)
    (he : e ∈ episodes) (hw1 : now2 ≤ e.releaseAt)
    (hw2 : e.releaseAt ≤ now2 + 48 * 60 * 60 * 1000)
    (hfil : animeFilterOk r e = true) (hdueLater : dueThisTick now2 r e = true)
    (htar : targetOf r Channel.email ≠ "")
    (hdel3 : d2 r.id e.id Channel.email = true) :
    wasSent (runReminderScan d now reminders episodes st).log r.id e.id Channel.email =
      wasSent st.log r.id e.id Channel.email ∧
    wasSent (runReminderScan d now reminders episodes st).log r2.id e2.id c2 = true ∧
    wasSent (runReminderScan d2 now2 reminders episodes
        (runReminderScan d now reminders episodes st)).log r.id e.id Channel.email = true := by
  refine ⟨?_, ?_, ?_⟩
  · exact runReminderScan_wasSent_of_fail d now reminders episodes st r.id e.id
      Channel.email hfail
  · exact runReminderScan_delivers d now reminders episodes st r2 e2 c2 hr2 hact2 he2
      hw21 hw22 hfil2 hdue2 htar2 hdel2
  · exact runReminderScan_delivers d2 now2 reminders episodes _ r e Channel.email hr hact he
      hw1 hw2 hfil hdueLater htar hdel3

/-- Witness for C5: reminder 1's email delivery fails at the first tick (the
ledger stays empty for it) while reminder 2's succeeds; one tick later
reminder 1's delivery succeeds and is logged. -/
theorem deliveryFailure_isolated_witness :
    wasSent (runReminderScan (fun rid _ _ => rid == 2) 0 [remEx, remEx2] [epEx]
        ⟨[], []⟩).log remEx.id epEx.id Channel.email =
      wasSent (⟨[], []⟩ : ScanSt).log remEx.id epEx.id Channel.email ∧
    wasSent (runReminderScan (fun rid _ _ => rid == 2) 0 [remEx, remEx2] [epEx]
        ⟨[], []⟩).log remEx2.id epEx.id Channel.email = true ∧
    wasSent (runReminderScan (fun _ _ _ => true) 60000 [remEx, remEx2] [epEx]
        (runReminderScan (fun rid _ _ => rid == 2) 0 [remEx, remEx2] [epEx]
          ⟨[], []⟩)).log remEx.id epEx.id Channel.email = true :=
  deliveryFailure_isolated (fun rid _ _ => rid == 2) (fun _ _ _ => true) 0 60000
    [remEx, remEx2] [epEx] ⟨[], []⟩ remEx remEx2 epEx epEx Channel.email
    (by decide) (by decide) (by decide) (by decide) (by decide) (by decide)
    (by decide) (by decide) (by decide) (by decide) (by decide) (by decide)
    (by decide) (by decide) (by decide) (by decide) (by decide) (by decide)
    (by decide)

/-- The email delivery attempts recorded for one (reminder, episode) pair. -/
def emailAttemptsOf (st : ScanSt) (r e : Nat) : List Attempt :=
  st.attempts.filter
    (fun a => a.reminderId == r && a.episodeId == e && a.channel == Channel.email)

/-- A step on a different channel changes neither a triple's ledger
predicate on this channel nor its recorded attempts on this channel. -/
theorem channelStep_other_channel (d : Nat → Nat → Channel → Bool) (r2 e2 : Nat)
    (c2 : Channel) (tar : String) (b : ScanSt) (r e : Nat) (c : Channel) (hne : c2 ≠ c) :
    wasSent (channelStep d r2 e2 c2 tar b).log r e c = wasSent b.log r e c := by
  rcases channelStep_cases d r2 e2 c2 tar b with heq | ⟨_, _, ⟨heq, _⟩ | ⟨heq, _⟩⟩
  · rw [heq]
  · rw [heq]
    exact wasSent_append_ne b.log _ r e c (by simp [hne])
  · rw [heq]

/-- A Discord channel step leaves the recorded email attempts of every pair
unchanged. -/
theorem channelStep_discord_emailAttempts (d : Nat → Nat → Channel → Bool) (r2 e2 : Nat)
    (tar : String) (b : ScanSt) (r e : Nat) :
    emailAttemptsOf (channelStep d r2 e2 Channel.discord tar b) r e =
      emailAttemptsOf b r e := by
  rcases channelStep_cases d r2 e2 Channel.discord tar b with heq | ⟨_, _, ⟨heq, _⟩ | ⟨heq, _⟩⟩ <;>
    rw [heq]
  all_goals {
    unfold emailAttemptsOf
    rw [List.filter_append]
    simp
  }

/-- C8: for a due pair that passes the entity filter, the email channel
resolves its delivery address to the reminder's own email when that is set
and non-empty, falling back to the owning user's account email otherwise;
when the triple is unsent and the resolved address is non-empty, exactly one
email attempt to exactly that address is recorded, and when the resolved
address is empty (neither address exists) no email attempt is made and no
email ledger row is written for the pair. -/
theorem emailTarget_fallback (d : Nat → Nat → Channel → Bool) (now : Int)
    (r : ReminderRow) (e : EpisodeRow) (st : ScanSt)
    (hfil : animeFilterOk r e = true) (hdue : dueThisTick now r e = true) :
    (∀ s, r.email = some s → s ≠ "" → jsOrStr r.email r.userEmail = s) ∧
    ((r.email = none ∨ r.email = some "") → jsOrStr r.email r.userEmail = r.userEmail) ∧
    (emailAttemptsOf (processPair d now r e st) r.id e.id =
      emailAttemptsOf st r.id e.id ++
        (if jsOrStr r.email r.userEmail ≠ "" ∧ wasSent st.log r.id e.id Channel.email = false
          then [⟨r.id, e.id, Channel.email, jsOrStr r.email r.userEmail⟩] else [])) ∧
    (jsOrStr r.email r.userEmail = "" →
      wasSent (processPair d now r e st).log r.id e.id Channel.email =
        wasSent st.log r.id e.id Channel.email) := by
  refine ⟨?_, ?_, ?_, ?_⟩
  · intro s hs hne
    simp [jsOrStr, hs, hne]
  · rintro (hs | hs) <;> simp [jsOrStr, hs]
  · unfold processPair
    rw [if_pos (by simp [hfil, hdue])]
    rw [channelStep_discord_emailAttempts]
    by_cases htar : jsOrStr r.email r.userEmail = ""
    · rw [if_neg (by simp [htar])]
      unfold channelStep
      rw [if_neg (by simp [htar])]
      simp
    · by_cases hws : wasSent st.log r.id e.id Channel.email = true
      · rw [if_neg (by simp [hws])]
        unfold channelStep
        rw [if_neg (by simp [hws])]
        simp
      · have hws2 : wasSent st.log r.id e.id Channel.email = false := by simpa using hws
        rw [if_pos ⟨htar, hws2⟩]
        unfold channelStep
        rw [if_pos (by simp [htar, hws2])]
        by_cases hdel : d r.id e.id Channel.email = true
        · rw [if_pos hdel]
          unfold emailAttemptsOf
          rw [List.filter_append]
          simp
        · rw [if_neg hdel]
          unfold emailAttemptsOf
          rw [List.filter_append]
          simp
  · intro htar
    unfold processPair
    rw [if_pos (by simp [hfil, hdue])]
    rw [channelStep_other_channel d r.id e.id Channel.discord _ _ r.id e.id Channel.email
      (by simp)]
    unfold channelStep
    rw [if_neg (by simp [htar])]

/-- Witness for C8 at a concrete due pair: `remEx` has its own email set, the
pair is due at `now = 0`, the ledger is empty. -/
theorem emailTarget_fallback_witness :
    (∀ s, remEx.email = some s → s ≠ "" → jsOrStr remEx.email remEx.userEmail = s) ∧
    ((remEx.email = none ∨ remEx.email = some "") →
      jsOrStr remEx.email remEx.userEmail = remEx.userEmail) ∧
    (emailAttemptsOf (processPair (fun _ _ _ => true) 0 remEx epEx ⟨[], []⟩) remEx.id epEx.id =
      emailAttemptsOf (⟨[], []⟩ : ScanSt) remEx.id epEx.id ++
        (if jsOrStr remEx.email remEx.userEmail ≠ "" ∧
            wasSent (⟨[], []⟩ : ScanSt).log remEx.id epEx.id Channel.email = false
          then [⟨remEx.id, epEx.id, Channel.email, jsOrStr remEx.email remEx.userEmail⟩]
          else [])) ∧
    (jsOrStr remEx.email remEx.userEmail = "" →
      wasSent (processPair (fun _ _ _ => true) 0 remEx epEx ⟨[], []⟩).log
          remEx.id epEx.id Channel.email =
        wasSent (⟨[], []⟩ : ScanSt).log remEx.id epEx.id Channel.email) :=
  emailTarget_fallback (fun _ _ _ => true) 0 remEx epEx ⟨[], []⟩ (by decide) (by decide)

/-- JavaScript falsiness of a nullable number: `null`, `undefined` and `0`
are falsy (`!item.episode`, `!item.airingAt`). -/
def jsIntFalsy (v : Option Int) : Bool :=
  match v with
  | none => true
  | some n => n == 0

/-- JavaScript `x || null` for a nullable number
(`item.media.episodes || null`). -/
def jsIntOrNull (v : Option Int) : Option Int :=
  match v with
  | none => none
  | some n => if n = 0 then none else some n

/-- A row of the `anime` table (`db.js`). -/
structure AnimeRow where
  id : Nat
  title : String
  coverImageUrl : Option String
  synopsis : Option String
  totalEpisodes : Option Int
  source : String
  externalId : Option Int
  createdAt : Int
deriving DecidableEq, Repr

/-- The catalog half of the store: the `anime` and `episodes` tables plus
their AUTOINCREMENT counters.  External ids are kept as the AniList integer
ids (the code stores `String(id)`, an injective conversion). -/
structure Catalog where
  anime : List AnimeRow
  nextAnimeId : Nat
  episodes : List EpisodeRow
  nextEpisodeId : Nat
deriving DecidableEq, Repr

/-- The `media.title` object of an AniList airing schedule item. -/
structure MediaTitle where
  english : Option String
  romaji : Option String
  native : Option String
deriving DecidableEq, Repr

/-- The `media` object of an AniList airing schedule item.  `mediaType` is
the GraphQL `type` field. -/
structure Media where
  id : Int
  mediaType : String
  title : MediaTitle
  coverLarge : Option String
  coverMedium : Option String
  description : Option String
  episodes : Option Int
deriving DecidableEq, Repr

/-- One AniList `airingSchedules` item as `runAniListSync` consumes it. -/
structure AiringItem where
  id : Int
  episode : Option Int
  airingAt : Option Int
  media : Option Media
deriving DecidableEq, Repr

/-- Title resolution of `runAniListSync`:
`title.english || title.romaji || title.native || `Anime ${id}``. -/
def mediaTitleOf (m : Media) : String :=
  jsOrStr m.title.english
    (jsOrStr m.title.romaji
      (jsOrStr m.title.native ("Anime " ++ toString m.id)))

/-- A truthy nullable string, `null` otherwise. -/
def jsOptTruthy (a : Option String) : Option String :=
  match a with
  | none => none
  | some s => if s = "" then none else some s

/-- Cover resolution: `coverImage?.large || coverImage?.medium || null`. -/
def mediaCoverOf (m : Media) : Option String :=
  match jsOptTruthy m.coverLarge with
  | some s => some s
  | none => jsOptTruthy m.coverMedium

/-- Synopsis resolution, `sanitizeText(item.media.description)`: a falsy
description is `null`; otherwise the markup-stripping pipeline runs, which
the embedding abstracts as the `sanitize` parameter (it already folds the
final empty-to-null step). -/
def synopsisOf (sanitize : String → Option String) (m : Media) : Option String :=
  match m.description with
  | none => none
  | some d => if d = "" then none else sanitize d

/-- Refresh of a matched `anime` row by `upsertAnimeStmt`'s
`ON CONFLICT ... DO UPDATE`: mutable display fields change, identity fields
do not. -/
def refreshAnime (title : String) (cover synopsis : Option String) (teps : Option Int)
    (targetId : Nat) (a : AnimeRow) : AnimeRow :=
  if a.id == targetId then
    { a with
      title := title
      coverImageUrl := cover
      synopsis := synopsis
      totalEpisodes := teps }
  else a

/-- The row `upsertAnimeStmt`'s conflict target finds: the unique index is
`idx_anime_source_external ON anime(source, external_id)`. -/
def findAnimeRow (c : Catalog) (ext : Int) : Option AnimeRow :=
  c.anime.find? (fun a => a.source == "anilist" && a.externalId == some ext)

/-- `upsertAnimeStmt`: insert an `anilist` row, or on (source, external_id)
conflict refresh the mutable display fields of the existing row. -/
def upsertAnime (c : Catalog) (title : String) (cover synopsis : Option String)
    (teps : Option Int) (ext : Int) (now : Int) : Catalog :=
  match findAnimeRow c ext with
  | some a =>
    { c with anime := c.anime.map (refreshAnime title cover synopsis teps a.id) }
  | none =>
    { c with
      anime := c.anime ++
        [⟨c.nextAnimeId, title, cover, synopsis, teps, "anilist", some ext, now⟩]
      nextAnimeId := c.nextAnimeId + 1 }

/-- `findAnimeStmt`: resolve the local id of the `anilist` row with the
given external id. -/
def findAnime (c : Catalog) (ext : Int) : Option Nat :=
  (findAnimeRow c ext).map (fun a => a.id)

/-- Refresh of a matched `episodes` row by `upsertEpisodeStmt`'s
`ON CONFLICT ... DO UPDATE`: ordinal, title, release time and the owning
`anime_id` change, identity fields do not. -/
def refreshEpisode (aid : Nat) (n : Int) (title : Option String) (rel : Int)
    (targetId : Nat) (r : EpisodeRow) : EpisodeRow :=
  if r.id == targetId then
    { r with animeId := aid, episodeNumber := n, title := title, releaseAt := rel }
  else r

/-- The row `upsertEpisodeStmt`'s conflict target finds (unique index
`idx_episode_source_external`). -/
def findEpisodeRow (c : Catalog) (ext : Int) : Option EpisodeRow :=
  c.episodes.find? (fun r => r.source == "anilist" && r.externalId == some ext)

/-- Does a row other than `selfId` already occupy `(anime_id,
episode_number) = (aid, n)`?  SQLite enforces
`UNIQUE(anime_id, episode_number)` on both the INSERT and the DO UPDATE
path of the upsert, erroring out when a different row holds the pair. -/
def ordinalClashes (eps : List EpisodeRow) (selfId aid : Nat) (n : Int) : Bool :=
  eps.any (fun r => r.id != selfId && r.animeId == aid && r.episodeNumber == n)

/-- The SQLite error text for the ordinal uniqueness violation. -/
def uniqueViolationMsg : String :=
  "UNIQUE constraint failed: episodes.anime_id, episodes.episode_number"

/-- `upsertEpisodeStmt`: insert an `anilist` episode row, or on
(source, external_id) conflict re-point and refresh the existing row; either
path fails when it would put two rows on the same
(anime_id, episode_number). -/
def upsertEpisode (c : Catalog) (aid : Nat) (n : Int) (title : Option String)
    (rel : Int) (ext : Int) (now : Int) : Except String Catalog :=
  match findEpisodeRow c ext with
  | some r =>
    if ordinalClashes c.episodes r.id aid n then
      .error uniqueViolationMsg
    else
      .ok { c with episodes := c.episodes.map (refreshEpisode aid n title rel r.id) }
  | none =>
    if c.episodes.any (fun r => r.animeId == aid && r.episodeNumber == n) then
      .error uniqueViolationMsg
    else
      .ok { c with
        episodes := c.episodes ++
          [⟨c.nextEpisodeId, aid, n, title, rel, "anilist", some ext, now⟩]
        nextEpisodeId := c.nextEpisodeId + 1 }

/-- Accumulator of the sync transaction: the catalog plus the two counters
of the run summary (`insertedAnime` counts every executed anime upsert —
better-sqlite3 reports `changes = 1` on both the insert and the update path
— and `syncedEpisodes` every executed episode upsert). -/
structure SyncAcc where
  catalog : Catalog
  insertedAnime : Nat
  syncedEpisodes : Nat
deriving DecidableEq, Repr

/-- One iteration of the transaction body of `runAniListSync`: skip items
without an ANIME media or without a truthy episode ordinal and airing time;
upsert the anime, resolve its local id, upsert the episode keyed on the
schedule's external id. -/
def itemStep (sanitize : String → Option String) (now : Int) (acc : SyncAcc)
    (it : AiringItem) : Except String SyncAcc :=
  match it.media with
  | none => .ok acc
  | some m =>
    if m.mediaType ≠ "ANIME" then .ok acc
    else if jsIntFalsy it.episode || jsIntFalsy it.airingAt then .ok acc
    else
      let c1 := upsertAnime acc.catalog (mediaTitleOf m) (mediaCoverOf m)
        (synopsisOf sanitize m) (jsIntOrNull m.episodes) m.id now
      let acc1 : SyncAcc :=
        { acc with catalog := c1, insertedAnime := acc.insertedAnime + 1 }
      match findAnime c1 m.id with
      | none => .ok acc1
      | some aid =>
        match upsertEpisode c1 aid (it.episode.getD 0)
            (some ("Episode " ++ toString (it.episode.getD 0)))
            (it.airingAt.getD 0 * 1000) it.id now with
        | .error msg => .error msg
        | .ok c2 =>
          .ok { catalog := c2, insertedAnime := acc1.insertedAnime,
                syncedEpisodes := acc.syncedEpisodes + 1 }

/-- The page loop of `runAniListSync`: fetch pages `page, page+1, …` while
the fuel lasts, stop early on an empty page, fail on the first fetch
error. -/
def fetchPagesFrom (fetchPage : Nat → Except String (List AiringItem)) :
    Nat → Nat → List AiringItem → Except String (List AiringItem)
  | 0, _, acc => .ok acc
  | fuel + 1, page, acc =>
    match fetchPage page with
    | .error e => .error e
    | .ok [] => .ok acc
    | .ok rs => fetchPagesFrom fetchPage fuel (page + 1) (acc ++ rs)

/-- All rows fetched by one sync run: pages 1 .. `pageLimit`. -/
def fetchRows (fetchPage : Nat → Except String (List AiringItem)) (pageLimit : Nat) :
    Except String (List AiringItem) :=
  fetchPagesFrom fetchPage pageLimit 1 []

/-- The machine-readable summary `runAniListSync` persists on success
(the `source: 'anilist'` literal is omitted). -/
structure SyncSummary where
  fetchedRows : Nat
  syncedEpisodes : Nat
  touchedAnime : Nat
  syncedAt : Int
deriving DecidableEq, Repr

/-- The three `sync_state` values of the AniList source:
`anilist_last_sync`, `anilist_last_result`, `anilist_last_error`. -/
structure SyncState where
  lastSync : Option Int
  lastResult : Option SyncSummary
  lastError : Option String
deriving DecidableEq, Repr

/-- The store as the reconciliation engine sees it. -/
structure SyncDB where
  catalog : Catalog
  syncState : SyncState
deriving DecidableEq, Repr

/-- `runAniListSync`: fetch all pages first (no write happens before the
fetches complete), then run every upsert inside one transaction — a throw
rolls the whole transaction back, so either all writes of the run are
visible or none — and on success overwrite the three `sync_state` values
(`last_error` becomes the empty string). -/
def runAniListSync (sanitize : String → Option String)
    (fetchPage : Nat → Except String (List AiringItem)) (pageLimit : Nat)
    (now : Int) (db : SyncDB) : SyncDB × Except String SyncSummary :=
  match fetchRows fetchPage pageLimit with
  | .error e => (db, .error e)
  | .ok rows =>
    match rows.foldlM (itemStep sanitize now) ⟨db.catalog, 0, 0⟩ with
    | .error e => (db, .error e)
    | .ok acc =>
      let s : SyncSummary :=
        ⟨rows.length, acc.syncedEpisodes, acc.insertedAnime, now⟩
      ({ catalog := acc.catalog,
         syncState := { lastSync := some now, lastResult := some s, lastError := some "" } },
       .ok s)

/-- `runAniListSyncSafe`: on failure record only `anilist_last_error` and
rethrow; the catalog and the other two `sync_state` values keep their prior
contents. -/
def runAniListSyncSafe (sanitize : String → Option String)
    (fetchPage : Nat → Except String (List AiringItem)) (pageLimit : Nat)
    (now : Int) (db : SyncDB) : SyncDB × Except String SyncSummary :=
  match runAniListSync sanitize fetchPage pageLimit now db with
  | (db2, .ok s) => (db2, .ok s)
  | (db2, .error e) =>
    ({ db2 with syncState := { db2.syncState with lastError := some e } }, .error e)

/-- C4: when a reconciliation run fails — the upstream fetch fails on any
page, the response is malformed, or the transaction aborts — no catalog
write of that run becomes visible, and the `sync_state` record keeps the
previous run's last-sync timestamp and summary unchanged; only the
last-error value is overwritten with the failure. -/
theorem syncFailure_preserves_state (sanitize : String → Option String)
    (fetchPage : Nat → Except String (List AiringItem)) (pageLimit : Nat)
    (now : Int) (db : SyncDB) (e : String)
    (h : (runAniListSyncSafe sanitize fetchPage pageLimit now db).2 = .error e) :
    (runAniListSyncSafe sanitize fetchPage pageLimit now db).1 =
      { catalog := db.catalog
        syncState :=
          { lastSync := db.syncState.lastSync
            lastResult := db.syncState.lastResult
            lastError := some e } } := by
  unfold runAniListSyncSafe runAniListSync at h ⊢
  cases hf : fetchRows fetchPage pageLimit with
  | error e2 =>
    rw [hf] at h
    dsimp only at h ⊢
    have h2 : e2 = e := by injection h
    subst h2
    rfl
  | ok rows =>
    rw [hf] at h
    dsimp only at h ⊢
    cases hb : rows.foldlM (itemStep sanitize now) (⟨db.catalog, 0, 0⟩ : SyncAcc) with
    | error e2 =>
      rw [hb] at h
      dsimp only at h ⊢
      have h2 : e2 = e := by injection h
      subst h2
      rfl
    | ok acc =>
      rw [hb] at h
      dsimp only at h
      exact absurd h (by simp)

/-- Witness for C4: the upstream succeeds on page 1 (non-empty) and fails on
page 2 with a page limit of 3 — the run fails, the catalog and the prior
sync-state summary are untouched, only the error is recorded. -/
theorem syncFailure_preserves_state_witness :
    (runAniListSyncSafe (fun _ => none)
        (fun p => if p == 1 then
            .ok [{ id := 201, episode := some 5, airingAt := some 7, media := none }]
          else .error "page 2 down")
        3 99
        { catalog := { anime := [], nextAnimeId := 1, episodes := [], nextEpisodeId := 1 }
          syncState := { lastSync := some 11, lastResult := none, lastError := some "" } }).1 =
      { catalog := { anime := [], nextAnimeId := 1, episodes := [], nextEpisodeId := 1 }
        syncState := { lastSync := some 11, lastResult := none,
                        lastError := some "page 2 down" } } :=
  syncFailure_preserves_state (fun _ => none)
    (fun p => if p == 1 then
        .ok [{ id := 201, episode := some 5, airingAt := some 7, media := none }]
      else .error "page 2 down")
    3 99
    { catalog := { anime := [], nextAnimeId := 1, episodes := [], nextEpisodeId := 1 }
      syncState := { lastSync := some 11, lastResult := none, lastError := some "" } }
    "page 2 down" (by rfl)

/-- Two members of a list with the same key are equal when the list's keys
are duplicate-free. -/
theorem mem_key_unique {α β : Type} (f : α → Option β) (l : List α)
    (hl : (l.filterMap f).Nodup) (a b : α) (ha : a ∈ l) (hb : b ∈ l)
    (k : β) (hka : f a = some k) (hkb : f b = some k) : a = b := by
  induction l with
  | nil => cases ha
  | cons x xs ih =>
    have hfm : (List.filterMap f (x :: xs)).Nodup := hl
    rcases List.mem_cons.1 ha with hax | hax <;> rcases List.mem_cons.1 hb with hbx | hbx
    · rw [hax, hbx]
    · exfalso
      subst hax
      rw [List.filterMap_cons, hka] at hfm
      have hkmem : k ∈ xs.filterMap f := List.mem_filterMap.2 ⟨b, hbx, hkb⟩
      exact (List.nodup_cons.1 hfm).1 hkmem
    · exfalso
      subst hbx
      rw [List.filterMap_cons, hkb] at hfm
      have hkmem : k ∈ xs.filterMap f := List.mem_filterMap.2 ⟨a, hax, hka⟩
      exact (List.nodup_cons.1 hfm).1 hkmem
    · refine ih ?_ hax hbx
      rw [List.filterMap_cons] at hfm
      cases hfx : f x with
      | none => rw [hfx] at hfm; exact hfm
      | some kx => rw [hfx] at hfm; exact (List.nodup_cons.1 hfm).2

/-- The (source, external id) key of an `anime` row, when synced. -/
def animeKeyOf (a : AnimeRow) : Option (String × Int) :=
  a.externalId.map (fun e => (a.source, e))

/-- The (source, external id) key of an `episodes` row, when synced. -/
def epKeyOf (r : EpisodeRow) : Option (String × Int) :=
  r.externalId.map (fun e => (r.source, e))

/-- The invariants `db.js` declares on the catalog: primary keys below the
AUTOINCREMENT counters and duplicate-free, the two (source, external_id)
unique indexes, and `UNIQUE(anime_id, episode_number)` on episodes. -/
def CatalogInv (c : Catalog) : Prop :=
  (c.anime.map (fun a => a.id)).Nodup ∧
  (∀ a ∈ c.anime, a.id < c.nextAnimeId) ∧
  (c.anime.filterMap animeKeyOf).Nodup ∧
  (c.episodes.map (fun r => r.id)).Nodup ∧
  (∀ r ∈ c.episodes, r.id < c.nextEpisodeId) ∧
  (c.episodes.filterMap epKeyOf).Nodup ∧
  (c.episodes.map (fun r => (r.animeId, r.episodeNumber))).Nodup

/-- Two members of a list with the same projection are equal when the
projected list is duplicate-free. -/
theorem mem_proj_unique {α β : Type} (g : α → β) (l : List α)
    (hl : (l.map g).Nodup) (a b : α) (ha : a ∈ l) (hb : b ∈ l)
    (hg : g a = g b) : a = b := by
  refine mem_key_unique (fun x => some (g x)) l ?_ a b ha hb (g a) rfl (by rw [hg])
  have hfm : List.filterMap (some ∘ g) l = List.map g l :=
    congrFun (List.filterMap_eq_map g) l
  simpa [Function.comp] using hfm ▸ hl

/-- C6 (amended): when an upstream schedule's external id is re-keyed to a
different (already-resolved) local anime, the episode upsert succeeds and
re-points the one existing row — no duplicate row for the
(source, external id) key, the table size and the id counter are unchanged —
provided no other episode row already occupies the target
(anime_id, episode_number) pair; the uniqueness constraint on that pair
makes the transaction fail otherwise (see the counterexample). -/
theorem upsertEpisode_rekey (c : Catalog) (r0 : EpisodeRow) (aid : Nat) (n : Int)
    (t : Option String) (rel : Int) (ext : Int) (now : Int)
    (hids : (c.episodes.map (fun r => r.id)).Nodup)
    (hkeys : (c.episodes.filterMap epKeyOf).Nodup)
    (hr : r0 ∈ c.episodes) (hsrc : r0.source = "anilist") (hext : r0.externalId = some ext)
    (hnoclash : ∀ r2 ∈ c.episodes, r2.id ≠ r0.id →
      ¬(r2.animeId = aid ∧ r2.episodeNumber = n)) :
    ∃ c2, upsertEpisode c aid n t rel ext now = .ok c2 ∧
      c2.episodes.length = c.episodes.length ∧
      c2.nextEpisodeId = c.nextEpisodeId ∧
      (∀ r2 ∈ c2.episodes, r2.source = "anilist" → r2.externalId = some ext →
        r2.id = r0.id ∧ r2.animeId = aid ∧ r2.episodeNumber = n ∧
          r2.title = t ∧ r2.releaseAt = rel) ∧
      (∃ r2 ∈ c2.episodes, r2.source = "anilist" ∧ r2.externalId = some ext) := by
  have hfind : findEpisodeRow c ext = some r0 := by
    unfold findEpisodeRow
    cases hq : c.episodes.find? (fun r => r.source == "anilist" && r.externalId == some ext) with
    | none =>
      exfalso
      rw [List.find?_eq_none] at hq
      exact hq r0 hr (by simp [hsrc, hext])
    | some rf =>
      have hrfmem := List.mem_of_find?_eq_some hq
      have hrfp := List.find?_some hq
      simp only [Bool.and_eq_true, beq_iff_eq] at hrfp
      have : rf = r0 := by
        refine mem_key_unique epKeyOf c.episodes hkeys rf r0 hrfmem hr ("anilist", ext) ?_ ?_
        · unfold epKeyOf
          rw [hrfp.2, hrfp.1]
          rfl
        · unfold epKeyOf
          rw [hext, hsrc]
          rfl
      rw [this]
  have hclash : ordinalClashes c.episodes r0.id aid n = false := by
    unfold ordinalClashes
    rw [List.any_eq_false]
    intro r2 hr2
    simp only [Bool.and_eq_true, bne_iff_ne, beq_iff_eq]
    rintro ⟨⟨hne, haid⟩, hnum⟩
    exact (hnoclash r2 hr2 hne) ⟨haid, hnum⟩
  refine ⟨{ c with episodes := c.episodes.map (refreshEpisode aid n t rel r0.id) },
    by unfold upsertEpisode; rw [hfind]; dsimp only; simp [hclash], ?_, rfl, ?_, ?_⟩
  · simp
  · intro r2 hr2 hr2src hr2ext
    obtain ⟨x, hx, hxeq⟩ := List.mem_map.1 hr2
    by_cases hxid : x.id = r0.id
    · have hxr0 : x = r0 := mem_proj_unique (fun r => r.id) c.episodes hids x r0 hx hr hxid
      subst hxr0
      rw [← hxeq]
      unfold refreshEpisode
      simp
    · have hxun : refreshEpisode aid n t rel r0.id x = x := by
        unfold refreshEpisode
        rw [if_neg (by simpa using hxid)]
      rw [hxun] at hxeq
      subst hxeq
      exfalso
      have : x = r0 := by
        refine mem_key_unique epKeyOf c.episodes hkeys x r0 hx hr ("anilist", ext) ?_ ?_
        · unfold epKeyOf
          rw [hr2ext, hr2src]
          rfl
        · unfold epKeyOf
          rw [hext, hsrc]
          rfl
      exact hxid (by rw [this])
  · refine ⟨refreshEpisode aid n t rel r0.id r0, List.mem_map_of_mem _ hr, ?_, ?_⟩
    · unfold refreshEpisode
      simp [hsrc]
    · unfold refreshEpisode
      simp [hext]

/-- Store state for the re-keying counterexample: two synced anime
(external ids 101 and 102) each already own an episode with ordinal 5;
schedule 201 belongs to anime 101. -/
def rekeyDbEx : SyncDB :=
  { catalog :=
      { anime :=
          [⟨1, "Show A", none, none, none, "anilist", some 101, 0⟩,
           ⟨2, "Show B", none, none, none, "anilist", some 102, 0⟩]
        nextAnimeId := 3
        episodes :=
          [⟨1, 1, 5, some "Episode 5", 5000, "anilist", some 201, 0⟩,
           ⟨2, 2, 5, some "Episode 5", 7000, "anilist", some 202, 0⟩]
        nextEpisodeId := 3 }
    syncState := { lastSync := some 10, lastResult := none, lastError := some "" } }

/-- Upstream page for the re-keying counterexample: schedule 201 is now
associated with media 102 (it used to belong to media 101), same ordinal
5. -/
def rekeyFetchEx (p : Nat) : Except String (List AiringItem) :=
  if p == 1 then
    .ok [{ id := 201, episode := some 5, airingAt := some 5
           media := some
             { id := 102, mediaType := "ANIME"
               title := { english := none, romaji := some "Show B", native := none }
               coverLarge := none, coverMedium := none, description := none
               episodes := none } }]
  else
    .ok []

/-- C6 counterexample: schedule 201's external id is re-associated from
anime 101 to anime 102 upstream, but anime 102 already has an episode with
the same ordinal 5, so the re-pointing UPDATE violates
`UNIQUE(anime_id, episode_number)`: the sync run fails (the transaction
rolls back, the catalog is unchanged and the error is recorded) instead of
updating the owning anime id as the claim states. -/
theorem sync_rekey_failure_counterexample :
    (∃ r ∈ rekeyDbEx.catalog.episodes, r.externalId = some 201 ∧ r.animeId = 1) ∧
    (∃ a ∈ rekeyDbEx.catalog.anime, a.externalId = some 102 ∧ a.id = 2) ∧
    (runAniListSyncSafe (fun _ => none) rekeyFetchEx 1 99 rekeyDbEx).2 =
      .error uniqueViolationMsg ∧
    (runAniListSyncSafe (fun _ => none) rekeyFetchEx 1 99 rekeyDbEx).1.catalog =
      rekeyDbEx.catalog := by
  refine ⟨by decide, by decide, by rfl, by rfl⟩

/-- Witness for the amended C6: one synced episode row, re-keyed to anime 2
with no ordinal clash — the upsert succeeds and re-points the row. -/
theorem upsertEpisode_rekey_witness :
    ∃ c2, upsertEpisode
        { anime := [], nextAnimeId := 1
          episodes := [⟨1, 1, 5, some "Episode 5", 5000, "anilist", some 201, 0⟩]
          nextEpisodeId := 2 }
        2 5 (some "Episode 5") 6000 201 99 = .ok c2 ∧
      c2.episodes.length =
        ({ anime := [], nextAnimeId := 1
           episodes := [⟨1, 1, 5, some "Episode 5", 5000, "anilist", some 201, 0⟩]
           nextEpisodeId := 2 } : Catalog).episodes.length ∧
      c2.nextEpisodeId =
        ({ anime := [], nextAnimeId := 1
           episodes := [⟨1, 1, 5, some "Episode 5", 5000, "anilist", some 201, 0⟩]
           nextEpisodeId := 2 } : Catalog).nextEpisodeId ∧
      (∀ r2 ∈ c2.episodes, r2.source = "anilist" → r2.externalId = some 201 →
        r2.id = (⟨1, 1, 5, some "Episode 5", 5000, "anilist", some 201, 0⟩ : EpisodeRow).id ∧
          r2.animeId = 2 ∧ r2.episodeNumber = 5 ∧
          r2.title = some "Episode 5" ∧ r2.releaseAt = 6000) ∧
      (∃ r2 ∈ c2.episodes, r2.source = "anilist" ∧ r2.externalId = some 201) :=
  upsertEpisode_rekey
    { anime := [], nextAnimeId := 1
      episodes := [⟨1, 1, 5, some "Episode 5", 5000, "anilist", some 201, 0⟩]
      nextEpisodeId := 2 }
    ⟨1, 1, 5, some "Episode 5", 5000, "anilist", some 201, 0⟩
    2 5 (some "Episode 5") 6000 201 99
    (by decide) (by decide) (by decide) (by decide) (by decide) (by decide)

/-- The anime refresh keeps the row id. -/
theorem refreshAnime_id (t : String) (cov syn : Option String) (te : Option Int)
    (tid : Nat) (a : AnimeRow) : (refreshAnime t cov syn te tid a).id = a.id := by
  unfold refreshAnime
  split <;> rfl

/-- The anime refresh keeps the (source, external id) key. -/
theorem refreshAnime_key (t : String) (cov syn : Option String) (te : Option Int)
    (tid : Nat) (a : AnimeRow) :
    (refreshAnime t cov syn te tid a).source = a.source ∧
    (refreshAnime t cov syn te tid a).externalId = a.externalId := by
  unfold refreshAnime
  split <;> exact ⟨rfl, rfl⟩

/-- The episode refresh keeps the row id. -/
theorem refreshEpisode_id (aid : Nat) (n : Int) (tt : Option String) (rel : Int)
    (tid : Nat) (r : EpisodeRow) : (refreshEpisode aid n tt rel tid r).id = r.id := by
  unfold refreshEpisode
  split <;> rfl

/-- The episode refresh keeps the (source, external id) key. -/
theorem refreshEpisode_key (aid : Nat) (n : Int) (tt : Option String) (rel : Int)
    (tid : Nat) (r : EpisodeRow) :
    (refreshEpisode aid n tt rel tid r).source = r.source ∧
    (refreshEpisode aid n tt rel tid r).externalId = r.externalId := by
  unfold refreshEpisode
  split <;> exact ⟨rfl, rfl⟩

/-- The anime upsert leaves the episode side of the catalog alone. -/
theorem upsertAnime_episodes_eq (c : Catalog) (t : String) (cov syn : Option String)
    (te : Option Int) (ext : Int) (now : Int) :
    (upsertAnime c t cov syn te ext now).episodes = c.episodes ∧
    (upsertAnime c t cov syn te ext now).nextEpisodeId = c.nextEpisodeId := by
  unfold upsertAnime
  cases findAnimeRow c ext <;> exact ⟨rfl, rfl⟩

/-- The episode upsert leaves the anime side of the catalog alone. -/
theorem upsertEpisode_anime_eq (c : Catalog) (aid : Nat) (n : Int) (tt : Option String)
    (rel : Int) (ext : Int) (now : Int) (c2 : Catalog)
    (h : upsertEpisode c aid n tt rel ext now = .ok c2) :
    c2.anime = c.anime ∧ c2.nextAnimeId = c.nextAnimeId := by
  unfold upsertEpisode at h
  cases hq : findEpisodeRow c ext <;> rw [hq] at h <;> dsimp only at h
  · split at h
    · exact absurd h (by simp)
    · simp only [Except.ok.injEq] at h
      rw [← h]
      exact ⟨rfl, rfl⟩
  · split at h
    · exact absurd h (by simp)
    · simp only [Except.ok.injEq] at h
      rw [← h]
      exact ⟨rfl, rfl⟩

/-- The anime-row search predicate is blind to a refresh. -/
theorem findAnimeRow_pred_refresh (t : String) (cov syn : Option String) (te : Option Int)
    (tid : Nat) (e2 : Int) (a : AnimeRow) :
    ((refreshAnime t cov syn te tid a).source == "anilist" &&
      (refreshAnime t cov syn te tid a).externalId == some e2) =
    (a.source == "anilist" && a.externalId == some e2) := by
  rw [(refreshAnime_key t cov syn te tid a).1, (refreshAnime_key t cov syn te tid a).2]

/-- A resolved local anime id survives any later anime upsert. -/
theorem findAnime_upsertAnime_stable (c : Catalog) (t : String) (cov syn : Option String)
    (te : Option Int) (ext : Int) (now : Int) (e2 : Int) (i : Nat)
    (h : findAnime c e2 = some i) :
    findAnime (upsertAnime c t cov syn te ext now) e2 = some i := by
  obtain ⟨a0, ha0, ha0id⟩ : ∃ a0, findAnimeRow c e2 = some a0 ∧ a0.id = i := by
    unfold findAnime at h
    cases hq : findAnimeRow c e2 with
    | none => rw [hq] at h; exact absurd h (by simp)
    | some a0 =>
      rw [hq] at h
      have h2 : a0.id = i := by simpa using h
      exact ⟨a0, rfl, h2⟩
  unfold upsertAnime
  cases hfa : findAnimeRow c ext with
  | some a =>
    unfold findAnime findAnimeRow
    dsimp only
    rw [List.find?_map]
    have hcong : (fun x : AnimeRow => x.source == "anilist" && x.externalId == some e2) ∘
        refreshAnime t cov syn te a.id =
        (fun x : AnimeRow => x.source == "anilist" && x.externalId == some e2) := by
      funext x
      exact findAnimeRow_pred_refresh t cov syn te a.id e2 x
    rw [hcong]
    unfold findAnimeRow at ha0
    rw [ha0]
    simp [refreshAnime_id, ha0id]
  | none =>
    unfold findAnime findAnimeRow
    dsimp only
    rw [List.find?_append]
    unfold findAnimeRow at ha0
    rw [ha0]
    simp [ha0id]

/-- The anime row(s) with an external key hold exactly these field values:
there is such a row, and every such row carries the values. -/
def animeValues (c : Catalog) (ext : Int) (t : String) (cov syn : Option String)
    (te : Option Int) : Prop :=
  (∃ a ∈ c.anime, a.source = "anilist" ∧ a.externalId = some ext) ∧
  (∀ a ∈ c.anime, a.source = "anilist" → a.externalId = some ext →
    a.title = t ∧ a.coverImageUrl = cov ∧ a.synopsis = syn ∧ a.totalEpisodes = te)

/-- The episode row(s) with an external key hold exactly these field values.
-/
def episodeValues (c : Catalog) (ext : Int) (aid : Nat) (n : Int) (tt : Option String)
    (rel : Int) : Prop :=
  (∃ r ∈ c.episodes, r.source = "anilist" ∧ r.externalId = some ext) ∧
  (∀ r ∈ c.episodes, r.source = "anilist" → r.externalId = some ext →
    r.animeId = aid ∧ r.episodeNumber = n ∧ r.title = tt ∧ r.releaseAt = rel)

/-- A synced anime row with the key exists, so `findAnimeStmt` resolves an
id. -/
theorem findAnime_of_exists (c : Catalog) (ext : Int)
    (hex : ∃ a ∈ c.anime, a.source = "anilist" ∧ a.externalId = some ext) :
    ∃ i, findAnime c ext = some i := by
  obtain ⟨a, ha, hsrc, hext⟩ := hex
  have hsome : (c.anime.find?
      (fun x => x.source == "anilist" && x.externalId == some ext)).isSome = true :=
    List.find?_isSome.2 ⟨a, ha, by simp [hsrc, hext]⟩
  unfold findAnime findAnimeRow
  cases hq : c.anime.find? (fun x => x.source == "anilist" && x.externalId == some ext) with
  | none => rw [hq] at hsome; cases hsome
  | some a0 => exact ⟨a0.id, rfl⟩

/-- The anime upsert leaves the external key's row(s) holding exactly the
written values. -/
theorem upsertAnime_establishes (c : Catalog) (t : String) (cov syn : Option String)
    (te : Option Int) (ext : Int) (now : Int)
    (hids : (c.anime.map (fun a => a.id)).Nodup)
    (hkeys : (c.anime.filterMap animeKeyOf).Nodup) :
    animeValues (upsertAnime c t cov syn te ext now) ext t cov syn te := by
  unfold upsertAnime
  cases hfa : findAnimeRow c ext with
  | some a =>
    have hamem : a ∈ c.anime := List.mem_of_find?_eq_some hfa
    have hap := List.find?_some hfa
    simp only [Bool.and_eq_true, beq_iff_eq] at hap
    constructor
    · refine ⟨refreshAnime t cov syn te a.id a, List.mem_map_of_mem _ hamem, ?_, ?_⟩
      · rw [(refreshAnime_key t cov syn te a.id a).1, hap.1]
      · rw [(refreshAnime_key t cov syn te a.id a).2, hap.2]
    · intro x' hx' hsrc hext
      obtain ⟨x, hx, hxeq⟩ := List.mem_map.1 hx'
      by_cases hxid : x.id = a.id
      · have hxa : x = a := mem_proj_unique (fun r => r.id) c.anime hids x a hx hamem hxid
        subst hxa
        rw [← hxeq]
        unfold refreshAnime
        simp
      · have hxun : refreshAnime t cov syn te a.id x = x := by
          unfold refreshAnime
          rw [if_neg (by simpa using hxid)]
        rw [hxun] at hxeq
        subst hxeq
        exfalso
        have hxa : x = a := by
          refine mem_key_unique animeKeyOf c.anime hkeys x a hx hamem ("anilist", ext) ?_ ?_
          · unfold animeKeyOf
            rw [hext, hsrc]
            rfl
          · unfold animeKeyOf
            rw [hap.2, hap.1]
            rfl
        exact hxid (by rw [hxa])
  | none =>
    constructor
    · exact ⟨⟨c.nextAnimeId, t, cov, syn, te, "anilist", some ext, now⟩,
        List.mem_append_right _ (by simp), rfl, rfl⟩
    · intro x' hx' hsrc hext
      rcases List.mem_append.1 hx' with hl | hr
      · exfalso
        unfold findAnimeRow at hfa
        rw [List.find?_eq_none] at hfa
        exact hfa x' hl (by simp [hsrc, hext])
      · simp only [List.mem_singleton] at hr
        subst hr
        exact ⟨rfl, rfl, rfl, rfl⟩

/-- A successful episode upsert leaves the external key's row(s) holding
exactly the written values. -/
theorem upsertEpisode_establishes (c : Catalog) (aid : Nat) (n : Int)
    (tt : Option String) (rel : Int) (ext : Int) (now : Int) (c2 : Catalog)
    (hids : (c.episodes.map (fun r => r.id)).Nodup)
    (hkeys : (c.episodes.filterMap epKeyOf).Nodup)
    (h : upsertEpisode c aid n tt rel ext now = .ok c2) :
    episodeValues c2 ext aid n tt rel := by
  unfold upsertEpisode at h
  cases hfa : findEpisodeRow c ext with
  | some r =>
    rw [hfa] at h
    dsimp only at h
    split at h
    · exact absurd h (by simp)
    have hrmem : r ∈ c.episodes := List.mem_of_find?_eq_some hfa
    have hrp := List.find?_some hfa
    simp only [Bool.and_eq_true, beq_iff_eq] at hrp
    simp only [Except.ok.injEq] at h
    subst h
    constructor
    · refine ⟨refreshEpisode aid n tt rel r.id r, List.mem_map_of_mem _ hrmem, ?_, ?_⟩
      · rw [(refreshEpisode_key aid n tt rel r.id r).1, hrp.1]
      · rw [(refreshEpisode_key aid n tt rel r.id r).2, hrp.2]
    · intro x' hx' hsrc hext
      obtain ⟨x, hx, hxeq⟩ := List.mem_map.1 hx'
      by_cases hxid : x.id = r.id
      · have hxr : x = r := mem_proj_unique (fun q => q.id) c.episodes hids x r hx hrmem hxid
        subst hxr
        rw [← hxeq]
        unfold refreshEpisode
        simp
      · have hxun : refreshEpisode aid n tt rel r.id x = x := by
          unfold refreshEpisode
          rw [if_neg (by simpa using hxid)]
        rw [hxun] at hxeq
        subst hxeq
        exfalso
        have hxr : x = r := by
          refine mem_key_unique epKeyOf c.episodes hkeys x r hx hrmem ("anilist", ext) ?_ ?_
          · unfold epKeyOf
            rw [hext, hsrc]
            rfl
          · unfold epKeyOf
            rw [hrp.2, hrp.1]
            rfl
        exact hxid (by rw [hxr])
  | none =>
    rw [hfa] at h
    dsimp only at h
    split at h
    · exact absurd h (by simp)
    simp only [Except.ok.injEq] at h
    subst h
    constructor
    · exact ⟨⟨c.nextEpisodeId, aid, n, tt, rel, "anilist", some ext, now⟩,
        List.mem_append_right _ (by simp), rfl, rfl⟩
    · intro x' hx' hsrc hext
      rcases List.mem_append.1 hx' with hl | hr
      · exfalso
        unfold findEpisodeRow at hfa
        rw [List.find?_eq_none] at hfa
        exact hfa x' hl (by simp [hsrc, hext])
      · simp only [List.mem_singleton] at hr
        subst hr
        exact ⟨rfl, rfl, rfl, rfl⟩

/-- The anime upsert of a different external key does not disturb the rows
of this key. -/
theorem upsertAnime_frame (c : Catalog) (t : String) (cov syn : Option String)
    (te : Option Int) (ext : Int) (now : Int) (e2 : Int) (t2 : String)
    (cov2 syn2 : Option String) (te2 : Option Int)
    (hids : (c.anime.map (fun a => a.id)).Nodup)
    (hkeys : (c.anime.filterMap animeKeyOf).Nodup)
    (hne : e2 ≠ ext) (hv : animeValues c e2 t2 cov2 syn2 te2) :
    animeValues (upsertAnime c t cov syn te ext now) e2 t2 cov2 syn2 te2 := by
  unfold upsertAnime
  cases hfa : findAnimeRow c ext with
  | some a =>
    have hamem : a ∈ c.anime := List.mem_of_find?_eq_some hfa
    have hap := List.find?_some hfa
    simp only [Bool.and_eq_true, beq_iff_eq] at hap
    obtain ⟨r0, hr0, hr0src, hr0ext⟩ := hv.1
    have hr0id : r0.id ≠ a.id := by
      intro hcontra
      have hr0a : r0 = a :=
        mem_proj_unique (fun q => q.id) c.anime hids r0 a hr0 hamem hcontra
      rw [hr0a] at hr0ext
      rw [hap.2] at hr0ext
      exact hne (by injection hr0ext with hq; omega)
    constructor
    · refine ⟨refreshAnime t cov syn te a.id r0, List.mem_map_of_mem _ hr0, ?_, ?_⟩
      · rw [(refreshAnime_key t cov syn te a.id r0).1, hr0src]
      · rw [(refreshAnime_key t cov syn te a.id r0).2, hr0ext]
    · intro x' hx' hsrc hext
      obtain ⟨x, hx, hxeq⟩ := List.mem_map.1 hx'
      by_cases hxid : x.id = a.id
      · exfalso
        have hxa : x = a := mem_proj_unique (fun q => q.id) c.anime hids x a hx hamem hxid
        subst hxa
        rw [← hxeq] at hext
        rw [(refreshAnime_key t cov syn te x.id x).2] at hext
        rw [hap.2] at hext
        exact hne (by injection hext with hq; omega)
      · have hxun : refreshAnime t cov syn te a.id x = x := by
          unfold refreshAnime
          rw [if_neg (by simpa using hxid)]
        rw [hxun] at hxeq
        subst hxeq
        exact hv.2 x hx hsrc hext
  | none =>
    obtain ⟨r0, hr0, hr0src, hr0ext⟩ := hv.1
    constructor
    · exact ⟨r0, List.mem_append_left _ hr0, hr0src, hr0ext⟩
    · intro x' hx' hsrc hext
      rcases List.mem_append.1 hx' with hl | hr
      · exact hv.2 x' hl hsrc hext
      · exfalso
        simp only [List.mem_singleton] at hr
        subst hr
        simp only at hext
        exact hne (by injection hext with hq; omega)

/-- A successful episode upsert of a different external key does not
disturb the rows of this key. -/
theorem upsertEpisode_frame (c : Catalog) (aid : Nat) (n : Int) (tt : Option String)
    (rel : Int) (ext : Int) (now : Int) (c2 : Catalog) (e2 : Int) (aid2 : Nat)
    (n2 : Int) (tt2 : Option String) (rel2 : Int)
    (hids : (c.episodes.map (fun r => r.id)).Nodup)
    (hkeys : (c.episodes.filterMap epKeyOf).Nodup)
    (hne : e2 ≠ ext) (h : upsertEpisode c aid n tt rel ext now = .ok c2)
    (hv : episodeValues c e2 aid2 n2 tt2 rel2) :
    episodeValues c2 e2 aid2 n2 tt2 rel2 := by
  unfold upsertEpisode at h
  cases hfa : findEpisodeRow c ext with
  | some r =>
    rw [hfa] at h
    dsimp only at h
    split at h
    · exact absurd h (by simp)
    simp only [Except.ok.injEq] at h
    subst h
    have hrmem : r ∈ c.episodes := List.mem_of_find?_eq_some hfa
    have hrp := List.find?_some hfa
    simp only [Bool.and_eq_true, beq_iff_eq] at hrp
    obtain ⟨r0, hr0, hr0src, hr0ext⟩ := hv.1
    have hr0id : r0.id ≠ r.id := by
      intro hcontra
      have hr0r : r0 = r :=
        mem_proj_unique (fun q => q.id) c.episodes hids r0 r hr0 hrmem hcontra
      rw [hr0r] at hr0ext
      rw [hrp.2] at hr0ext
      exact hne (by injection hr0ext with hq; omega)
    constructor
    · refine ⟨refreshEpisode aid n tt rel r.id r0, List.mem_map_of_mem _ hr0, ?_, ?_⟩
      · rw [(refreshEpisode_key aid n tt rel r.id r0).1, hr0src]
      · rw [(refreshEpisode_key aid n tt rel r.id r0).2, hr0ext]
    · intro x' hx' hsrc hext
      obtain ⟨x, hx, hxeq⟩ := List.mem_map.1 hx'
      by_cases hxid : x.id = r.id
      · exfalso
        have hxr : x = r := mem_proj_unique (fun q => q.id) c.episodes hids x r hx hrmem hxid
        subst hxr
        rw [← hxeq] at hext
        rw [(refreshEpisode_key aid n tt rel x.id x).2] at hext
        rw [hrp.2] at hext
        exact hne (by injection hext with hq; omega)
      · have hxun : refreshEpisode aid n tt rel r.id x = x := by
          unfold refreshEpisode
          rw [if_neg (by simpa using hxid)]
        rw [hxun] at hxeq
        subst hxeq
        exact hv.2 x hx hsrc hext
  | none =>
    rw [hfa] at h
    dsimp only at h
    split at h
    · exact absurd h (by simp)
    simp only [Except.ok.injEq] at h
    subst h
    obtain ⟨r0, hr0, hr0src, hr0ext⟩ := hv.1
    constructor
    · exact ⟨r0, List.mem_append_left _ hr0, hr0src, hr0ext⟩
    · intro x' hx' hsrc hext
      rcases List.mem_append.1 hx' with hl | hr
      · exact hv.2 x' hl hsrc hext
      · exfalso
        simp only [List.mem_singleton] at hr
        subst hr
        simp only at hext
        exact hne (by injection hext with hq; omega)

/-- Re-pointing one row to a free (anime_id, episode_number) slot keeps the
ordinal pairs duplicate-free. -/
theorem nodup_pairs_refresh (eps : List EpisodeRow) (tid aid : Nat) (n : Int)
    (tt : Option String) (rel : Int)
    (hpairs : (eps.map (fun r => (r.animeId, r.episodeNumber))).Nodup)
    (hids : (eps.map (fun r => r.id)).Nodup)
    (hnocl : ∀ r2 ∈ eps, r2.id ≠ tid → ¬(r2.animeId = aid ∧ r2.episodeNumber = n)) :
    ((eps.map (refreshEpisode aid n tt rel tid)).map
      (fun r => (r.animeId, r.episodeNumber))).Nodup := by
  induction eps with
  | nil => exact List.nodup_nil
  | cons x xs ih =>
    simp only [List.map_cons, List.nodup_cons] at hpairs hids ⊢
    refine ⟨?_, ih hpairs.2 hids.2 (fun r2 hr2 => hnocl r2 (List.mem_cons_of_mem x hr2))⟩
    intro hmem
    simp only [List.map_map, List.mem_map, Function.comp] at hmem
    obtain ⟨y, hy, hyeq⟩ := hmem
    have hyid : y.id ≠ x.id := by
      intro hcontra
      exact hids.1 (List.mem_map.2 ⟨y, hy, hcontra⟩)
    by_cases hxt : x.id = tid
    · -- the head is the re-pointed row: its new pair is (aid, n)
      have hxpair : ((refreshEpisode aid n tt rel tid x).animeId,
          (refreshEpisode aid n tt rel tid x).episodeNumber) = (aid, n) := by
        unfold refreshEpisode
        rw [if_pos (by simpa using hxt)]
      rw [hxpair] at hyeq
      have hyt : y.id ≠ tid := by
        rw [← hxt]
        exact hyid
      have hyun : refreshEpisode aid n tt rel tid y = y := by
        unfold refreshEpisode
        rw [if_neg (by simpa using hyt)]
      rw [hyun] at hyeq
      have hinst := hnocl y (List.mem_cons_of_mem x hy) hyt
      exact hinst ⟨congrArg Prod.fst hyeq, congrArg Prod.snd hyeq⟩
    · -- the head is untouched
      have hxun : refreshEpisode aid n tt rel tid x = x := by
        unfold refreshEpisode
        rw [if_neg (by simpa using hxt)]
      rw [hxun] at hyeq
      by_cases hyt : y.id = tid
      · have hypair : ((refreshEpisode aid n tt rel tid y).animeId,
            (refreshEpisode aid n tt rel tid y).episodeNumber) = (aid, n) := by
          unfold refreshEpisode
          rw [if_pos (by simpa using hyt)]
        rw [hypair] at hyeq
        have hinst := hnocl x (List.mem_cons_self x xs) hxt
        exact hinst ⟨(congrArg Prod.fst hyeq).symm, (congrArg Prod.snd hyeq).symm⟩
      · have hyun : refreshEpisode aid n tt rel tid y = y := by
          unfold refreshEpisode
          rw [if_neg (by simpa using hyt)]
        rw [hyun] at hyeq
        exact hpairs.1 (List.mem_map.2 ⟨y, hy, hyeq⟩)

/-- Appending a fresh element keeps a list duplicate-free. -/
theorem nodup_append_singleton {α : Type} (l : List α) (x : α) (h : l.Nodup)
    (hx : x ∉ l) : (l ++ [x]).Nodup :=
  h.append (List.nodup_singleton x)
    (fun a ha hax => by
      simp only [List.mem_singleton] at hax
      subst hax
      exact hx ha)

/-- The anime refresh is blind to the (source, external id) key function. -/
theorem animeKeyOf_refresh (t : String) (cov syn : Option String) (te : Option Int)
    (tid : Nat) : animeKeyOf ∘ refreshAnime t cov syn te tid = animeKeyOf := by
  funext x
  unfold Function.comp animeKeyOf
  rw [(refreshAnime_key t cov syn te tid x).1, (refreshAnime_key t cov syn te tid x).2]

/-- The episode refresh is blind to the (source, external id) key function.
-/
theorem epKeyOf_refresh (aid : Nat) (n : Int) (tt : Option String) (rel : Int)
    (tid : Nat) : epKeyOf ∘ refreshEpisode aid n tt rel tid = epKeyOf := by
  funext x
  unfold Function.comp epKeyOf
  rw [(refreshEpisode_key aid n tt rel tid x).1, (refreshEpisode_key aid n tt rel tid x).2]

/-- The anime upsert preserves the catalog invariants. -/
theorem upsertAnime_inv (c : Catalog) (t : String) (cov syn : Option String)
    (te : Option Int) (ext : Int) (now : Int) (hinv : CatalogInv c) :
    CatalogInv (upsertAnime c t cov syn te ext now) := by
  obtain ⟨haids, habnd, hakeys, heids, hebnd, hekeys, hepairs⟩ := hinv
  unfold upsertAnime
  cases hfa : findAnimeRow c ext with
  | some a =>
    dsimp only
    refine ⟨?_, ?_, ?_, heids, hebnd, hekeys, hepairs⟩
    · rw [List.map_map]
      have hcong : (fun x : AnimeRow => x.id) ∘ refreshAnime t cov syn te a.id =
          (fun x : AnimeRow => x.id) := by
        funext x
        exact refreshAnime_id t cov syn te a.id x
      rw [hcong]
      exact haids
    · intro x' hx'
      obtain ⟨x, hx, hxeq⟩ := List.mem_map.1 hx'
      rw [← hxeq, refreshAnime_id]
      exact habnd x hx
    · rw [List.filterMap_map, animeKeyOf_refresh]
      exact hakeys
  | none =>
    dsimp only
    refine ⟨?_, ?_, ?_, heids, hebnd, hekeys, hepairs⟩
    · rw [List.map_append]
      refine nodup_append_singleton _ _ haids ?_
      intro hmem
      simp only [List.mem_map] at hmem
      obtain ⟨x, hx, hxeq⟩ := hmem
      have hb := habnd x hx
      have hxeq2 : x.id = c.nextAnimeId := hxeq
      omega
    · intro x' hx'
      rcases List.mem_append.1 hx' with hl | hr
      · have hb := habnd x' hl
        show x'.id < c.nextAnimeId + 1
        omega
      · simp only [List.mem_singleton] at hr
        subst hr
        show c.nextAnimeId < c.nextAnimeId + 1
        omega
    · rw [List.filterMap_append]
      have hnew : List.filterMap animeKeyOf
          [(⟨c.nextAnimeId, t, cov, syn, te, "anilist", some ext, now⟩ : AnimeRow)] =
          [("anilist", ext)] := rfl
      rw [hnew]
      refine nodup_append_singleton _ _ hakeys ?_
      intro hmem
      rw [List.mem_filterMap] at hmem
      obtain ⟨x, hx, hxk⟩ := hmem
      unfold animeKeyOf at hxk
      unfold findAnimeRow at hfa
      rw [List.find?_eq_none] at hfa
      refine hfa x hx ?_
      cases hxe : x.externalId with
      | none => rw [hxe] at hxk; cases hxk
      | some v =>
        rw [hxe] at hxk
        simp at hxk
        simp [hxk.1, hxe, hxk.2]

/-- A successful episode upsert preserves the catalog invariants. -/
theorem upsertEpisode_inv (c : Catalog) (aid : Nat) (n : Int) (tt : Option String)
    (rel : Int) (ext : Int) (now : Int) (c2 : Catalog) (hinv : CatalogInv c)
    (h : upsertEpisode c aid n tt rel ext now = .ok c2) :
    CatalogInv c2 := by
  obtain ⟨haids, habnd, hakeys, heids, hebnd, hekeys, hepairs⟩ := hinv
  unfold upsertEpisode at h
  cases hfa : findEpisodeRow c ext with
  | some r =>
    rw [hfa] at h
    dsimp only at h
    split at h
    · exact absurd h (by simp)
    next hclash =>
    simp only [Except.ok.injEq] at h
    subst h
    refine ⟨haids, habnd, hakeys, ?_, ?_, ?_, ?_⟩
    · rw [List.map_map]
      have hcong : (fun x : EpisodeRow => x.id) ∘ refreshEpisode aid n tt rel r.id =
          (fun x : EpisodeRow => x.id) := by
        funext x
        exact refreshEpisode_id aid n tt rel r.id x
      rw [hcong]
      exact heids
    · intro x' hx'
      obtain ⟨x, hx, hxeq⟩ := List.mem_map.1 hx'
      rw [← hxeq, refreshEpisode_id]
      exact hebnd x hx
    · rw [List.filterMap_map, epKeyOf_refresh]
      exact hekeys
    · refine nodup_pairs_refresh c.episodes r.id aid n tt rel hepairs heids ?_
      intro r2 hr2 hne hcl
      unfold ordinalClashes at hclash
      rw [Bool.not_eq_true, List.any_eq_false] at hclash
      exact hclash r2 hr2 (by simp [hne, hcl.1, hcl.2])
  | none =>
    rw [hfa] at h
    dsimp only at h
    split at h
    · exact absurd h (by simp)
    next hclash =>
    simp only [Except.ok.injEq] at h
    subst h
    refine ⟨haids, habnd, hakeys, ?_, ?_, ?_, ?_⟩
    · rw [List.map_append]
      refine nodup_append_singleton _ _ heids ?_
      intro hmem
      simp only [List.mem_map] at hmem
      obtain ⟨x, hx, hxeq⟩ := hmem
      have hb := hebnd x hx
      have hxeq2 : x.id = c.nextEpisodeId := hxeq
      omega
    · intro x' hx'
      rcases List.mem_append.1 hx' with hl | hr
      · have hb := hebnd x' hl
        show x'.id < c.nextEpisodeId + 1
        omega
      · simp only [List.mem_singleton] at hr
        subst hr
        show c.nextEpisodeId < c.nextEpisodeId + 1
        omega
    · rw [List.filterMap_append]
      have hnew : List.filterMap epKeyOf
          [(⟨c.nextEpisodeId, aid, n, tt, rel, "anilist", some ext, now⟩ : EpisodeRow)] =
          [("anilist", ext)] := rfl
      rw [hnew]
      refine nodup_append_singleton _ _ hekeys ?_
      intro hmem
      rw [List.mem_filterMap] at hmem
      obtain ⟨x, hx, hxk⟩ := hmem
      unfold epKeyOf at hxk
      unfold findEpisodeRow at hfa
      rw [List.find?_eq_none] at hfa
      refine hfa x hx ?_
      cases hxe : x.externalId with
      | none => rw [hxe] at hxk; cases hxk
      | some v =>
        rw [hxe] at hxk
        simp at hxk
        simp [hxk.1, hxe, hxk.2]
    · rw [List.map_append]
      refine nodup_append_singleton _ _ hepairs ?_
      intro hmem
      simp only [List.mem_map] at hmem
      obtain ⟨x, hx, hxeq⟩ := hmem
      rw [Bool.not_eq_true, List.any_eq_false] at hclash
      refine hclash x hx ?_
      simp only [Bool.and_eq_true, beq_iff_eq]
      exact ⟨congrArg Prod.fst hxeq, congrArg Prod.snd hxeq⟩

/-- Upserting an anime whose key already holds exactly the written values
changes nothing. -/
theorem upsertAnime_identity (c : Catalog) (t : String) (cov syn : Option String)
    (te : Option Int) (ext : Int) (now : Int)
    (hids : (c.anime.map (fun a => a.id)).Nodup)
    (hv : animeValues c ext t cov syn te) :
    upsertAnime c t cov syn te ext now = c := by
  unfold upsertAnime
  cases hfa : findAnimeRow c ext with
  | none =>
    exfalso
    obtain ⟨r0, hr0, hr0src, hr0ext⟩ := hv.1
    unfold findAnimeRow at hfa
    rw [List.find?_eq_none] at hfa
    exact hfa r0 hr0 (by simp [hr0src, hr0ext])
  | some a =>
    dsimp only
    have hamem : a ∈ c.anime := List.mem_of_find?_eq_some hfa
    have hap := List.find?_some hfa
    simp only [Bool.and_eq_true, beq_iff_eq] at hap
    have hmapid : c.anime.map (refreshAnime t cov syn te a.id) = c.anime := by
      have hpt : ∀ x ∈ c.anime, refreshAnime t cov syn te a.id x = id x := by
        intro x hx
        by_cases hxid : x.id = a.id
        · have hxa : x = a := mem_proj_unique (fun q => q.id) c.anime hids x a hx hamem hxid
          subst hxa
          have hvals := hv.2 x hx hap.1 hap.2
          unfold refreshAnime
          rw [if_pos (by simp)]
          rw [← hvals.1, ← hvals.2.1, ← hvals.2.2.1, ← hvals.2.2.2]
          rfl
        · unfold refreshAnime
          rw [if_neg (by simpa using hxid)]
          rfl
      rw [List.map_congr_left hpt, List.map_id]
    rw [hmapid]

/-- Upserting an episode whose key already holds exactly the written values
succeeds and changes nothing. -/
theorem upsertEpisode_identity (c : Catalog) (aid : Nat) (n : Int) (tt : Option String)
    (rel : Int) (ext : Int) (now : Int)
    (hids : (c.episodes.map (fun r => r.id)).Nodup)
    (hpairs : (c.episodes.map (fun r => (r.animeId, r.episodeNumber))).Nodup)
    (hv : episodeValues c ext aid n tt rel) :
    upsertEpisode c aid n tt rel ext now = .ok c := by
  unfold upsertEpisode
  cases hfa : findEpisodeRow c ext with
  | none =>
    exfalso
    obtain ⟨r0, hr0, hr0src, hr0ext⟩ := hv.1
    unfold findEpisodeRow at hfa
    rw [List.find?_eq_none] at hfa
    exact hfa r0 hr0 (by simp [hr0src, hr0ext])
  | some r =>
    dsimp only
    have hrmem : r ∈ c.episodes := List.mem_of_find?_eq_some hfa
    have hrp := List.find?_some hfa
    simp only [Bool.and_eq_true, beq_iff_eq] at hrp
    have hrvals := hv.2 r hrmem hrp.1 hrp.2
    have hclash : ordinalClashes c.episodes r.id aid n = false := by
      unfold ordinalClashes
      rw [List.any_eq_false]
      intro r2 hr2
      simp only [Bool.and_eq_true, bne_iff_ne, beq_iff_eq]
      rintro ⟨⟨hne, haid⟩, hnum⟩
      have hpair : (r2.animeId, r2.episodeNumber) = (r.animeId, r.episodeNumber) := by
        rw [haid, hnum, hrvals.1, hrvals.2.1]
      have hr2r : r2 = r :=
        mem_proj_unique (fun q => (q.animeId, q.episodeNumber)) c.episodes hpairs
          r2 r hr2 hrmem hpair
      exact hne (by rw [hr2r])
    rw [if_neg (by simp [hclash])]
    have hmapid : c.episodes.map (refreshEpisode aid n tt rel r.id) = c.episodes := by
      have hpt : ∀ x ∈ c.episodes, refreshEpisode aid n tt rel r.id x = id x := by
        intro x hx
        by_cases hxid : x.id = r.id
        · have hxr : x = r :=
            mem_proj_unique (fun q => q.id) c.episodes hids x r hx hrmem hxid
          subst hxr
          have hvals := hv.2 x hx hrp.1 hrp.2
          unfold refreshEpisode
          rw [if_pos (by simp)]
          rw [← hvals.1, ← hvals.2.1, ← hvals.2.2.1, ← hvals.2.2.2]
          rfl
        · unfold refreshEpisode
          rw [if_neg (by simpa using hxid)]
          rfl
      rw [List.map_congr_left hpt, List.map_id]
    rw [hmapid]

/-- `animeValues` only inspects the anime table. -/
theorem animeValues_congr (c c2 : Catalog) (h : c2.anime = c.anime) (ext : Int)
    (t : String) (cov syn : Option String) (te : Option Int)
    (hv : animeValues c ext t cov syn te) : animeValues c2 ext t cov syn te := by
  unfold animeValues at hv ⊢
  rw [h]
  exact hv

/-- `episodeValues` only inspects the episode table. -/
theorem episodeValues_congr (c c2 : Catalog) (h : c2.episodes = c.episodes) (ext : Int)
    (aid : Nat) (n : Int) (tt : Option String) (rel : Int)
    (hv : episodeValues c ext aid n tt rel) : episodeValues c2 ext aid n tt rel := by
  unfold episodeValues at hv ⊢
  rw [h]
  exact hv

/-- `findAnime` only inspects the anime table. -/
theorem findAnime_congr (c c2 : Catalog) (h : c2.anime = c.anime) (ext : Int) :
    findAnime c2 ext = findAnime c ext := by
  unfold findAnime findAnimeRow
  rw [h]

/-- What one successful transaction iteration can have done: either the item
was skipped (catalog untouched), or the anime was upserted and — when the
local id resolved — the episode was upserted on top. -/
theorem itemStep_cases (sanitize : String → Option String) (now : Int) (acc : SyncAcc)
    (it : AiringItem) (acc2 : SyncAcc) (h : itemStep sanitize now acc it = .ok acc2) :
    acc2.catalog = acc.catalog ∨
    (∃ m, it.media = some m ∧ m.mediaType = "ANIME" ∧ jsIntFalsy it.episode = false ∧
      jsIntFalsy it.airingAt = false ∧
      ((findAnime (upsertAnime acc.catalog (mediaTitleOf m) (mediaCoverOf m)
          (synopsisOf sanitize m) (jsIntOrNull m.episodes) m.id now) m.id = none ∧
        acc2.catalog = upsertAnime acc.catalog (mediaTitleOf m) (mediaCoverOf m)
          (synopsisOf sanitize m) (jsIntOrNull m.episodes) m.id now) ∨
       (∃ aid c2, findAnime (upsertAnime acc.catalog (mediaTitleOf m) (mediaCoverOf m)
          (synopsisOf sanitize m) (jsIntOrNull m.episodes) m.id now) m.id = some aid ∧
        upsertEpisode (upsertAnime acc.catalog (mediaTitleOf m) (mediaCoverOf m)
            (synopsisOf sanitize m) (jsIntOrNull m.episodes) m.id now)
          aid (it.episode.getD 0) (some ("Episode " ++ toString (it.episode.getD 0)))
          (it.airingAt.getD 0 * 1000) it.id now = .ok c2 ∧
        acc2.catalog = c2))) := by
  unfold itemStep at h
  cases hm : it.media with
  | none =>
    rw [hm] at h
    dsimp only at h
    simp only [Except.ok.injEq] at h
    subst h
    exact Or.inl rfl
  | some m =>
    rw [hm] at h
    dsimp only at h
    by_cases htype : m.mediaType = "ANIME"
    · rw [if_neg (by simpa using htype)] at h
      by_cases hskip : (jsIntFalsy it.episode || jsIntFalsy it.airingAt) = true
      · rw [if_pos hskip] at h
        simp only [Except.ok.injEq] at h
        subst h
        exact Or.inl rfl
      · rw [if_neg hskip] at h
        simp only [Bool.not_eq_true, Bool.or_eq_false_iff] at hskip
        cases hfind : findAnime (upsertAnime acc.catalog (mediaTitleOf m) (mediaCoverOf m)
            (synopsisOf sanitize m) (jsIntOrNull m.episodes) m.id now) m.id with
        | none =>
          rw [hfind] at h
          dsimp only at h
          simp only [Except.ok.injEq] at h
          subst h
          exact Or.inr ⟨m, rfl, htype, hskip.1, hskip.2, Or.inl ⟨hfind, rfl⟩⟩
        | some aid =>
          rw [hfind] at h
          dsimp only at h
          cases hup : upsertEpisode (upsertAnime acc.catalog (mediaTitleOf m) (mediaCoverOf m)
              (synopsisOf sanitize m) (jsIntOrNull m.episodes) m.id now)
              aid (it.episode.getD 0) (some ("Episode " ++ toString (it.episode.getD 0)))
              (it.airingAt.getD 0 * 1000) it.id now with
          | error msg =>
            rw [hup] at h
            exact absurd h (by simp)
          | ok c2 =>
            rw [hup] at h
            dsimp only at h
            simp only [Except.ok.injEq] at h
            subst h
            exact Or.inr ⟨m, rfl, htype, hskip.1, hskip.2, Or.inr ⟨aid, c2, hfind, hup, rfl⟩⟩
    · rw [if_pos (by simpa using htype)] at h
      simp only [Except.ok.injEq] at h
      subst h
      exact Or.inl rfl

/-- After a sync run, a processed item's writes are settled in the catalog:
its anime row holds the item's display fields, its local id resolves, and
its episode row holds the item's ordinal, title, release time, and owning
id.  (Vacuous for skipped items.) -/
def ItemSettled (sanitize : String → Option String) (c : Catalog) (it : AiringItem) : Prop :=
  ∀ m, it.media = some m → m.mediaType = "ANIME" → jsIntFalsy it.episode = false →
    jsIntFalsy it.airingAt = false →
    animeValues c m.id (mediaTitleOf m) (mediaCoverOf m) (synopsisOf sanitize m)
      (jsIntOrNull m.episodes) ∧
    ∃ aid, findAnime c m.id = some aid ∧
      episodeValues c it.id aid (it.episode.getD 0)
        (some ("Episode " ++ toString (it.episode.getD 0))) (it.airingAt.getD 0 * 1000)

/-- One successful transaction iteration preserves the catalog invariants.
-/
theorem itemStep_inv (sanitize : String → Option String) (now : Int) (acc : SyncAcc)
    (it : AiringItem) (acc2 : SyncAcc) (hinv : CatalogInv acc.catalog)
    (h : itemStep sanitize now acc it = .ok acc2) : CatalogInv acc2.catalog := by
  rcases itemStep_cases sanitize now acc it acc2 h with hsk |
    ⟨m, hm, htype, hep, hair, ⟨hfind, hcat⟩ | ⟨aid, c2, hfind, hup, hcat⟩⟩
  · rw [hsk]
    exact hinv
  · rw [hcat]
    exact upsertAnime_inv _ _ _ _ _ _ _ hinv
  · rw [hcat]
    exact upsertEpisode_inv _ _ _ _ _ _ _ _ (upsertAnime_inv _ _ _ _ _ _ _ hinv) hup

/-- One successful transaction iteration settles its own item. -/
theorem itemStep_establishes (sanitize : String → Option String) (now : Int)
    (acc : SyncAcc) (it : AiringItem) (acc2 : SyncAcc) (hinv : CatalogInv acc.catalog)
    (h : itemStep sanitize now acc it = .ok acc2) :
    ItemSettled sanitize acc2.catalog it := by
  intro m hm htype hep hair
  unfold itemStep at h
  rw [hm] at h
  dsimp only at h
  rw [if_neg (by simpa using htype), if_neg (by simp [hep, hair])] at h
  obtain ⟨haids, habnd, hakeys, heids, hebnd, hekeys, hepairs⟩ := hinv
  have hA1 : animeValues (upsertAnime acc.catalog (mediaTitleOf m) (mediaCoverOf m)
      (synopsisOf sanitize m) (jsIntOrNull m.episodes) m.id now) m.id
      (mediaTitleOf m) (mediaCoverOf m) (synopsisOf sanitize m) (jsIntOrNull m.episodes) :=
    upsertAnime_establishes _ _ _ _ _ _ _ haids hakeys
  obtain ⟨aid, hfind⟩ := findAnime_of_exists _ m.id hA1.1
  rw [hfind] at h
  dsimp only at h
  have hinv1 : CatalogInv (upsertAnime acc.catalog (mediaTitleOf m) (mediaCoverOf m)
      (synopsisOf sanitize m) (jsIntOrNull m.episodes) m.id now) :=
    upsertAnime_inv _ _ _ _ _ _ _
      ⟨haids, habnd, hakeys, heids, hebnd, hekeys, hepairs⟩
  cases hup : upsertEpisode (upsertAnime acc.catalog (mediaTitleOf m) (mediaCoverOf m)
      (synopsisOf sanitize m) (jsIntOrNull m.episodes) m.id now)
      aid (it.episode.getD 0) (some ("Episode " ++ toString (it.episode.getD 0)))
      (it.airingAt.getD 0 * 1000) it.id now with
  | error msg =>
    rw [hup] at h
    exact absurd h (by simp)
  | ok c2 =>
    rw [hup] at h
    dsimp only at h
    simp only [Except.ok.injEq] at h
    subst h
    have hanime : c2.anime = (upsertAnime acc.catalog (mediaTitleOf m) (mediaCoverOf m)
        (synopsisOf sanitize m) (jsIntOrNull m.episodes) m.id now).anime :=
      (upsertEpisode_anime_eq _ _ _ _ _ _ _ _ hup).1
    refine ⟨animeValues_congr _ _ hanime _ _ _ _ _ hA1, aid, ?_, ?_⟩
    · rw [findAnime_congr _ _ hanime]
      exact hfind
    · exact upsertEpisode_establishes _ _ _ _ _ _ _ _ hinv1.2.2.2.1 hinv1.2.2.2.2.2.1 hup

/-- One successful transaction iteration keeps a consistent other item
settled: a different key is untouched (frame), while the same key is simply
re-written with the same values. -/
theorem itemStep_preserves_settled (sanitize : String → Option String) (now : Int)
    (acc : SyncAcc) (it2 : AiringItem) (acc2 : SyncAcc) (it : AiringItem)
    (hinv : CatalogInv acc.catalog)
    (h : itemStep sanitize now acc it2 = .ok acc2)
    (hidcomp : it.id = it2.id → it = it2)
    (hmcomp : ∀ mi mj, it.media = some mi → it2.media = some mj → mi.id = mj.id → mi = mj)
    (hs : ItemSettled sanitize acc.catalog it) :
    ItemSettled sanitize acc2.catalog it := by
  intro m hm htype hep hair
  obtain ⟨hA, aid, hfind, hE⟩ := hs m hm htype hep hair
  obtain ⟨haids, habnd, hakeys, heids, hebnd, hekeys, hepairs⟩ := hinv
  rcases itemStep_cases sanitize now acc it2 acc2 h with hsk |
    ⟨m2, hm2, htype2, hep2, hair2, hrest⟩
  · rw [hsk]
    exact ⟨hA, aid, hfind, hE⟩
  · have hA1 : animeValues (upsertAnime acc.catalog (mediaTitleOf m2) (mediaCoverOf m2)
        (synopsisOf sanitize m2) (jsIntOrNull m2.episodes) m2.id now) m.id
        (mediaTitleOf m) (mediaCoverOf m) (synopsisOf sanitize m) (jsIntOrNull m.episodes) := by
      by_cases hmid : m.id = m2.id
      · have hmm : m = m2 := hmcomp m m2 hm hm2 hmid
        subst hmm
        exact upsertAnime_establishes _ _ _ _ _ _ _ haids hakeys
      · exact upsertAnime_frame _ _ _ _ _ _ _ _ _ _ _ _ haids hakeys hmid hA
    have hfind1 : findAnime (upsertAnime acc.catalog (mediaTitleOf m2) (mediaCoverOf m2)
        (synopsisOf sanitize m2) (jsIntOrNull m2.episodes) m2.id now) m.id = some aid :=
      findAnime_upsertAnime_stable _ _ _ _ _ _ _ _ _ hfind
    have heps1 : (upsertAnime acc.catalog (mediaTitleOf m2) (mediaCoverOf m2)
        (synopsisOf sanitize m2) (jsIntOrNull m2.episodes) m2.id now).episodes =
        acc.catalog.episodes :=
      (upsertAnime_episodes_eq _ _ _ _ _ _ _).1
    have hE1 : episodeValues (upsertAnime acc.catalog (mediaTitleOf m2) (mediaCoverOf m2)
        (synopsisOf sanitize m2) (jsIntOrNull m2.episodes) m2.id now) it.id aid
        (it.episode.getD 0) (some ("Episode " ++ toString (it.episode.getD 0)))
        (it.airingAt.getD 0 * 1000) :=
      episodeValues_congr _ _ heps1 _ _ _ _ _ hE
    have hinv1 : CatalogInv (upsertAnime acc.catalog (mediaTitleOf m2) (mediaCoverOf m2)
        (synopsisOf sanitize m2) (jsIntOrNull m2.episodes) m2.id now) :=
      upsertAnime_inv _ _ _ _ _ _ _
        ⟨haids, habnd, hakeys, heids, hebnd, hekeys, hepairs⟩
    rcases hrest with ⟨hfnone, hcat⟩ | ⟨aid2, c2, hfind2, hup, hcat⟩
    · rw [hcat]
      exact ⟨hA1, aid, hfind1, hE1⟩
    · have hanime2 : c2.anime = (upsertAnime acc.catalog (mediaTitleOf m2) (mediaCoverOf m2)
          (synopsisOf sanitize m2) (jsIntOrNull m2.episodes) m2.id now).anime :=
        (upsertEpisode_anime_eq _ _ _ _ _ _ _ _ hup).1
      rw [hcat]
      refine ⟨animeValues_congr _ _ hanime2 _ _ _ _ _ hA1, aid, ?_, ?_⟩
      · rw [findAnime_congr _ _ hanime2]
        exact hfind1
      · by_cases hitid : it.id = it2.id
        · have hii : it = it2 := hidcomp hitid
          subst hii
          have hmm : m = m2 := by
            rw [hm] at hm2
            injection hm2
          subst hmm
          have haideq : aid2 = aid := by
            rw [hfind1] at hfind2
            injection hfind2 with hq
            omega
          subst haideq
          exact upsertEpisode_establishes _ _ _ _ _ _ _ _
            hinv1.2.2.2.1 hinv1.2.2.2.2.2.1 hup
        · exact upsertEpisode_frame _ _ _ _ _ _ _ _ _ _ _ _ _
            hinv1.2.2.2.1 hinv1.2.2.2.2.2.1 hitid hup hE1

/-- Running the transaction body over self-consistent rows from an
invariant-respecting catalog preserves the invariants and leaves every
processed item settled. -/
theorem syncFold_settles (sanitize : String → Option String) (now : Int)
    (rows : List AiringItem)
    (hcid : ∀ i ∈ rows, ∀ j ∈ rows, i.id = j.id → i = j)
    (hcm : ∀ i ∈ rows, ∀ j ∈ rows, ∀ mi mj, i.media = some mi → j.media = some mj →
      mi.id = mj.id → mi = mj) :
    ∀ (todo done : List AiringItem) (acc acc2 : SyncAcc),
      (∀ x ∈ todo, x ∈ rows) → (∀ x ∈ done, x ∈ rows) →
      CatalogInv acc.catalog → (∀ it ∈ done, ItemSettled sanitize acc.catalog it) →
      todo.foldlM (itemStep sanitize now) acc = .ok acc2 →
      CatalogInv acc2.catalog ∧
        (∀ it, (it ∈ done ∨ it ∈ todo) → ItemSettled sanitize acc2.catalog it) := by
  intro todo
  induction todo with
  | nil =>
    intro done acc acc2 htodo hdone hinv hset h
    rw [List.foldlM_nil] at h
    have hacc : acc = acc2 := by injection h
    subst hacc
    refine ⟨hinv, ?_⟩
    intro it hit
    rcases hit with hd | ht
    · exact hset it hd
    · cases ht
  | cons j todo2 ih =>
    intro done acc acc2 htodo hdone hinv hset h
    rw [List.foldlM_cons] at h
    cases hstep : itemStep sanitize now acc j with
    | error msg =>
      rw [hstep] at h
      exact absurd h (by simp [Bind.bind, Except.bind])
    | ok accj =>
      rw [hstep] at h
      have h2 : todo2.foldlM (itemStep sanitize now) accj = .ok acc2 := h
      have hjrows : j ∈ rows := htodo j (List.mem_cons_self j todo2)
      have hinvj : CatalogInv accj.catalog :=
        itemStep_inv sanitize now acc j accj hinv hstep
      have hsetj : ∀ it ∈ done ++ [j], ItemSettled sanitize accj.catalog it := by
        intro it hit
        rcases List.mem_append.1 hit with hd | hjj
        · refine itemStep_preserves_settled sanitize now acc j accj it hinv hstep ?_ ?_
            (hset it hd)
          · exact hcid it (hdone it hd) j hjrows
          · exact fun mi mj hmi hmj => hcm it (hdone it hd) j hjrows mi mj hmi hmj
        · simp only [List.mem_singleton] at hjj
          subst hjj
          exact itemStep_establishes sanitize now acc it accj hinv hstep
      have hres := ih (done ++ [j]) accj acc2
        (fun x hx => htodo x (List.mem_cons_of_mem j hx))
        (fun x hx => by
          rcases List.mem_append.1 hx with hd | hjj
          · exact hdone x hd
          · simp only [List.mem_singleton] at hjj
            subst hjj
            exact hjrows)
        hinvj hsetj h2
      refine ⟨hres.1, ?_⟩
      intro it hit
      refine hres.2 it ?_
      rcases hit with hd | ht
      · exact Or.inl (List.mem_append_left _ hd)
      · rcases List.mem_cons.1 ht with hjj | ht2
        · exact Or.inl (List.mem_append_right _ (by simp [hjj]))
        · exact Or.inr ht2

/-- Re-running one transaction iteration against a catalog in which the item
is already settled succeeds and leaves the catalog unchanged. -/
theorem itemStep_identity (sanitize : String → Option String) (now : Int) (c : Catalog)
    (acc : SyncAcc) (it : AiringItem) (hinv : CatalogInv c) (hacc : acc.catalog = c)
    (hs : ItemSettled sanitize c it) :
    ∃ acc2, itemStep sanitize now acc it = .ok acc2 ∧ acc2.catalog = c := by
  unfold itemStep
  cases hm : it.media with
  | none => exact ⟨acc, rfl, hacc⟩
  | some m =>
    dsimp only
    by_cases htype : m.mediaType = "ANIME"
    · rw [if_neg (by simpa using htype)]
      by_cases hskip : (jsIntFalsy it.episode || jsIntFalsy it.airingAt) = true
      · rw [if_pos hskip]
        exact ⟨acc, rfl, hacc⟩
      · rw [if_neg hskip]
        simp only [Bool.not_eq_true, Bool.or_eq_false_iff] at hskip
        obtain ⟨hA, aid, hfind, hE⟩ := hs m hm htype hskip.1 hskip.2
        have hupA : upsertAnime acc.catalog (mediaTitleOf m) (mediaCoverOf m)
            (synopsisOf sanitize m) (jsIntOrNull m.episodes) m.id now = c := by
          rw [hacc]
          exact upsertAnime_identity c _ _ _ _ _ _ hinv.1 hA
        rw [hupA, hfind]
        dsimp only
        rw [upsertEpisode_identity c aid _ _ _ _ _ hinv.2.2.2.1 hinv.2.2.2.2.2.2 hE]
        exact ⟨_, rfl, rfl⟩
    · rw [if_pos (by simpa using htype)]
      exact ⟨acc, rfl, hacc⟩

/-- Re-running the whole transaction body over settled rows succeeds and
leaves the catalog unchanged. -/
theorem syncFold_identity (sanitize : String → Option String) (now2 : Int) (c : Catalog)
    (hinv : CatalogInv c) :
    ∀ (todo : List AiringItem), (∀ it ∈ todo, ItemSettled sanitize c it) →
      ∀ acc, acc.catalog = c →
      ∃ acc2, todo.foldlM (itemStep sanitize now2) acc = .ok acc2 ∧ acc2.catalog = c := by
  intro todo
  induction todo with
  | nil =>
    intro _ acc hacc
    exact ⟨acc, rfl, hacc⟩
  | cons j todo2 ih =>
    intro hset acc hacc
    obtain ⟨accj, hstep, haccj⟩ :=
      itemStep_identity sanitize now2 c acc j hinv hacc (hset j (List.mem_cons_self j todo2))
    obtain ⟨acc2, hfold, hacc2⟩ :=
      ih (fun it hit => hset it (List.mem_cons_of_mem j hit)) accj haccj
    refine ⟨acc2, ?_, hacc2⟩
    rw [List.foldlM_cons, hstep]
    exact hfold

/-- C3: the reconciliation sync is idempotent on the catalog.  If a run over
self-consistent upstream rows succeeds and a second run fetches byte-
identical rows, the second run also succeeds, the `anime` and `episodes`
tables gain zero rows and keep every field value (the catalog is equal),
and only the `sync_state` records are refreshed (new timestamp, new
summary, empty error). -/
theorem sync_idempotent (sanitize : String → Option String)
    (fp1 fp2 : Nat → Except String (List AiringItem)) (pageLimit : Nat)
    (now1 now2 : Int) (db0 db1 : SyncDB) (rows : List AiringItem) (s1 : SyncSummary)
    (hcid : ∀ i ∈ rows, ∀ j ∈ rows, i.id = j.id → i = j)
    (hcm : ∀ i ∈ rows, ∀ j ∈ rows, ∀ mi ∈ i.media, ∀ mj ∈ j.media,
      mi.id = mj.id → mi = mj)
    (hf1 : fetchRows fp1 pageLimit = .ok rows)
    (hf2 : fetchRows fp2 pageLimit = .ok rows)
    (hinv : CatalogInv db0.catalog)
    (h1 : runAniListSyncSafe sanitize fp1 pageLimit now1 db0 = (db1, .ok s1)) :
    ∃ s2, runAniListSyncSafe sanitize fp2 pageLimit now2 db1 =
      ({ catalog := db1.catalog
         syncState :=
           { lastSync := some now2, lastResult := some s2, lastError := some "" } },
       .ok s2) := by
  unfold runAniListSyncSafe runAniListSync at h1
  rw [hf1] at h1
  dsimp only at h1
  cases hb1 : rows.foldlM (itemStep sanitize now1) (⟨db0.catalog, 0, 0⟩ : SyncAcc) with
  | error msg =>
    rw [hb1] at h1
    dsimp only at h1
    simp only [Prod.mk.injEq] at h1
    exact absurd h1.2 (by simp)
  | ok acc1 =>
    rw [hb1] at h1
    dsimp only at h1
    simp only [Prod.mk.injEq] at h1
    have hc1 : db1.catalog = acc1.catalog := by rw [← h1.1]
    have hsettle := syncFold_settles sanitize now1 rows hcid
      (fun i hi j hj mi mj hmi hmj => hcm i hi j hj mi hmi mj hmj)
      rows [] ⟨db0.catalog, 0, 0⟩ acc1 (fun x hx => hx) (fun x hx => by cases hx)
      hinv (fun it hit => by cases hit) hb1
    obtain ⟨acc2, hfold2, hacc2⟩ :=
      syncFold_identity sanitize now2 acc1.catalog hsettle.1 rows
        (fun it hit => hsettle.2 it (Or.inr hit)) ⟨db1.catalog, 0, 0⟩ hc1
    refine ⟨⟨rows.length, acc2.syncedEpisodes, acc2.insertedAnime, now2⟩, ?_⟩
    unfold runAniListSyncSafe runAniListSync
    rw [hf2]
    dsimp only
    rw [hfold2]
    dsimp only
    have hacc2b : acc2.catalog = db1.catalog := by rw [hacc2, hc1]
    rw [hacc2b]

/-- An empty store used by the C3 witness. -/
def dbEmptyEx : SyncDB :=
  { catalog := { anime := [], nextAnimeId := 1, episodes := [], nextEpisodeId := 1 }
    syncState := { lastSync := none, lastResult := none, lastError := none } }

/-- The store after the C3 witness's first run. -/
def dbAfterFirstEx : SyncDB :=
  { catalog := dbEmptyEx.catalog
    syncState :=
      { lastSync := some 5, lastResult := some ⟨0, 0, 0, 5⟩, lastError := some "" } }

/-- Witness for C3 at a concrete store and upstream: both runs fetch the
same pages and the second run leaves the catalog untouched, refreshing only
the sync state. -/
theorem sync_idempotent_witness :
    ∃ s2, runAniListSyncSafe (fun _ => none) (fun _ => .ok []) 3 7 dbAfterFirstEx =
      ({ catalog := dbAfterFirstEx.catalog
         syncState :=
           { lastSync := some 7, lastResult := some s2, lastError := some "" } },
       .ok s2) :=
  sync_idempotent (fun _ => none) (fun _ => .ok []) (fun _ => .ok []) 3 5 7 dbEmptyEx
    dbAfterFirstEx [] ⟨0, 0, 0, 5⟩
    (by simp) (by simp) (by rfl) (by rfl) (by unfold CatalogInv; decide) (by rfl)
